import Mathlib

/-!
Verification of the vibetools worktree manager (Python sources under
`src/vibe/`) against its natural-language specification.

The development shallowly embeds the relevant Python modules:

* `PyPath` models `pathlib.PurePosixPath` values (absolute flag plus the
  list of path components, mirroring `Path.parts` without the root entry).
* String helpers model `shlex.quote`, `str.replace`, `str.startswith`
  and slicing at the code-point level, matching Python semantics for the
  inputs the tool handles.
* The filesystem and the external `git`/`ssh` processes are modelled as
  explicit state (`FS`) and oracles (`CleanupEnv`, `GitEnv`, `RunEnv`):
  each subprocess result consulted by the Python code becomes a field of
  the oracle, and each filesystem mutation becomes a pure function on
  `FS`.

Definitions follow `src/vibe/config.py`, `src/vibe/connection.py`,
`src/vibe/git_ops.py`, `src/vibe/cleanup.py` and `src/vibe/utils.py`.
-/

/-- A single quote character (codepoint 39), used when embedding the
Python quoting helpers. -/
def squote : Char := Char.ofNat 39

/-- The single quote as a one-character string. -/
def squoteS : String := "\x27"

/-- Model of `pathlib.PurePosixPath`: whether the path is absolute and
its components (`Path.parts` without the leading `/` entry).  Components
are kept verbatim; `pathlib` guarantees they are nonempty, not `"."`,
and contain no `/`. -/
structure PyPath where
  abs : Bool
  comps : List String
deriving DecidableEq, Repr

/-- `sep.join(parts)` (Python string join). -/
def joinSep (sep : String) : List String → String
  | [] => ""
  | [a] => a
  | a :: b :: rest => a ++ sep ++ joinSep sep (b :: rest)

/-- `str(path)` for the `PyPath` model, matching `PurePosixPath.__str__`:
absolute paths render as `/a/b`, the empty relative path renders as `.`. -/
def pathStr (p : PyPath) : String :=
  if p.abs then "/" ++ joinSep "/" p.comps
  else if p.comps = [] then "." else joinSep "/" p.comps

/-- `Path.parts` for the model: absolute paths carry a leading `/` entry. -/
def pyParts (p : PyPath) : List String := (if p.abs then ["/"] else []) ++ p.comps

/-- Append one already-split component (no further splitting). -/
def childP (p : PyPath) (s : String) : PyPath := ⟨p.abs, p.comps ++ [s]⟩

/-- `Path.parent`: drop the last component; the root (and the empty
relative path) is its own parent, as in `pathlib`. -/
def parentOf (p : PyPath) : PyPath := ⟨p.abs, p.comps.dropLast⟩

/-- `Path.name`: the last component, or `""` for the root, as in `pathlib`. -/
def nameOf (p : PyPath) : String := p.comps.getLast?.getD ""

/-- `q.relative_to(p)` succeeds (used via `try/except ValueError` in the
sources): `p` and `q` share the anchor and `p`'s components are a prefix
of `q`'s. -/
def underB (p q : PyPath) : Bool := p.abs == q.abs && p.comps.isPrefixOf q.comps

/-- Strictly below `p`: `underB` but not equal. -/
def strictUnderB (p q : PyPath) : Bool := underB p q && !(q == p)

/-- Split a character list on `/`, accumulator-style (mirrors how
`pathlib` tokenises a path string). -/
def splitComps : List Char → List Char → List String
  | [], acc => [String.mk acc.reverse]
  | c :: rest, acc =>
      if c = '/' then String.mk acc.reverse :: splitComps rest []
      else splitComps rest (c :: acc)

/-- Path segments of a string as `pathlib` produces them: split on `/`,
dropping empty segments and `.` segments. -/
def strSegs (s : String) : List String :=
  ((splitComps s.data []).filter (fun t => t ≠ "" && t ≠ "."))

/-- `path / s` for a string operand, as `pathlib` joins: an absolute
operand replaces the path, otherwise its segments are appended. -/
def joinName (p : PyPath) (s : String) : PyPath :=
  match s.data with
  | '/' :: _ => ⟨true, strSegs s⟩
  | _ => ⟨p.abs, p.comps ++ strSegs s⟩

/-- A well-formed path component: nonempty, not `.`, no slash.  All
components produced by `pathlib` satisfy this. -/
def wfNameB (s : String) : Bool := s ≠ "" && s ≠ "." && decide ('/' ∉ s.data)

/-- A well-formed path: every component well-formed. -/
def wfPathB (p : PyPath) : Bool := p.comps.all wfNameB

/-- Insert into a list sorted by rendered path string. -/
def insertPath (x : PyPath) : List PyPath → List PyPath
  | [] => [x]
  | y :: ys => if pathStr x ≤ pathStr y then x :: y :: ys else y :: insertPath x ys

/-- `sorted(...)` over paths, by rendered string (for sibling paths this
agrees with Python's tuple-of-parts ordering). -/
def sortPaths : List PyPath → List PyPath
  | [] => []
  | x :: xs => insertPath x (sortPaths xs)

/-- Python `needle in hay` for strings: substring containment. -/
def strContains (hay needle : String) : Bool := decide (needle.data <:+: hay.data)

/-- Python `s.startswith(pre)`. -/
def strStarts (s pre : String) : Bool := pre.data.isPrefixOf s.data

/-- Python `s[n:]` (code-point based slicing). -/
def strDropN (s : String) (n : Nat) : String := String.mk (s.data.drop n)

/-- Characters `shlex.quote` leaves unquoted (the complement of
Python's `_find_unsafe` class: word characters and `@ % + = : , . -`
and the slash; ASCII fragment). -/
def shlexSafe (c : Char) : Bool :=
  c.isAlphanum || c == '@' || c == '%' || c == '+' || c == '=' || c == ':' ||
    c == ',' || c == '.' || c == '/' || c == '-' || c == '_'

/-- `shlex.quote`: empty strings render as `''`; safe strings pass
through; otherwise wrap in single quotes, rewriting each inner single
quote to `'"'"'`. -/
def shlexQuote (s : String) : String :=
  if s = "" then squoteS ++ squoteS
  else if s.data.all shlexSafe then s
  else
    squoteS ++
      String.mk (s.data.flatMap
        (fun c => if c = squote then
            (squoteS ++ "\"" ++ squoteS ++ "\"" ++ squoteS).data
          else [c])) ++ squoteS

/-- Double every single quote (embeds the call
`inner_cmd.replace("'", "''")` from `_wrap_for_wsl`). -/
def doubleSquotes (s : String) : String :=
  String.mk (s.data.flatMap (fun c => if c = squote then [squote, squote] else [c]))

/-- Per-character upper-casing (embeds Python `str.upper()` on ASCII
drive letters). -/
def strUpper (s : String) : String := String.mk (s.data.map Char.toUpper)

example : strSegs "a/b" = ["a", "b"] := by decide
example : strSegs "origin/" = ["origin"] := by decide
example : joinName ⟨true, ["w"]⟩ "r" = ⟨true, ["w", "r"]⟩ := by decide
example : pathStr ⟨true, ["mnt", "z"]⟩ = "/mnt/z" := by decide
example : shlexQuote "/mnt/z/_vibecoding/repo/br" = "/mnt/z/_vibecoding/repo/br" := by decide
example : shlexQuote "a b" = "\x27a b\x27" := by decide
example : doubleSquotes "a\x27b" = "a\x27\x27b" := by decide

/-! ## Filesystem model

The tool's view of the filesystem: the sets (lists) of existing
directories and regular files.  All mutations the Python code performs
(`rmdir`, `unlink`, `shutil.rmtree`, `git worktree remove`) only delete
entries, so every operation below is a filter. -/

/-- Filesystem state: existing directories and existing files. -/
structure FS where
  dirs : List PyPath
  files : List PyPath
deriving Repr

/-- `path.is_dir()`. -/
def FS.isDir (fs : FS) (p : PyPath) : Bool := decide (p ∈ fs.dirs)

/-- `path.exists()`. -/
def FS.exst (fs : FS) (p : PyPath) : Bool :=
  decide (p ∈ fs.dirs) || decide (p ∈ fs.files)

/-- `path.iterdir()`: immediate children (directories and files). -/
def FS.children (fs : FS) (p : PyPath) : List PyPath :=
  (fs.dirs ++ fs.files).filter (fun q => parentOf q == p && !(q == p))

/-- `shutil.rmtree(w)` / a successful `git worktree remove w`: drop the
path and everything below it. -/
def FS.removeTree (fs : FS) (w : PyPath) : FS :=
  ⟨fs.dirs.filter (fun q => !(underB w q)),
   fs.files.filter (fun q => !(underB w q))⟩

/-- A successful `d.rmdir()`: drop exactly the directory entry. -/
def FS.removeDirOnly (fs : FS) (d : PyPath) : FS :=
  { fs with dirs := fs.dirs.filter (fun q => !(q == d)) }

/-! ## Configuration (`src/vibe/config.py`) and the remote command
builders (`src/vibe/connection.py`) -/

/-- Modelled from the spec: `Shell`, the remote shell dialect selector.
The enum is declared in the repository's `vibe.platform` module (its
values `wsl` / `powershell` are pinned by `tests/test_platform.py`), but
that declaration is not among the provided sources; only the two
variants are needed.  `None` (macOS POSIX shell) is represented as
`Option.none` at use sites, exactly as in the Python signatures. -/
inductive Shell where
  | WSL
  | POWERSHELL
deriving DecidableEq, Repr

/-- The platform-derived configuration bundle consumed by the connection
layer (`UNLOCK_KEYCHAIN`, `KEYCHAIN_COMMAND` from `config.py`). -/
structure Config where
  unlockKeychain : Bool
  keychainCommand : Option String
deriving Repr

/-- `config.py`, macOS branch. -/
def macosConfig : Config :=
  ⟨true, some "security -v unlock-keychain -p admin ~/Library/Keychains/login.keychain-db"⟩

/-- `config.py`, WSL branch. -/
def wslConfig : Config := ⟨false, none⟩

/-- `config.py` `JUNK_FILES`, macOS branch. -/
def macosJunk : List String := [".DS_Store"]

/-- `config.py` `JUNK_FILES`, WSL branch. -/
def wslJunk : List String := ["Thumbs.db", "desktop.ini"]

/-- `config.wsl_path_to_windows`: rewrite `/mnt/<drive>/...` to
`<DRIVE>:\...`; any other shape falls through unchanged. -/
def wsl_path_to_windows (p : PyPath) : String :=
  match pyParts p with
  | _ :: "mnt" :: drive :: rest =>
      let restStr := joinSep "\\" rest
      if restStr = "" then strUpper drive ++ ":\\"
      else strUpper drive ++ ":\\" ++ restStr
  | _ => pathStr p

/-- `connection.escape_shell_path`. -/
def escape_shell_path (p : PyPath) : String := shlexQuote (pathStr p)

/-- `connection.build_remote_setup_commands`: `cd`, optional keychain
unlock, `TMPDIR` setup, joined with `&&`. -/
def build_remote_setup_commands (p : PyPath) (unlock : Bool) (kc : Option String) : String :=
  joinSep " && "
    (["cd " ++ escape_shell_path p] ++
      (match kc, unlock with
       | some k, true => [k]
       | _, _ => []) ++
      ["export TMPDIR=$(mktemp -d)"])

/-- `connection._wrap_for_wsl`: wrap the inner command as one
single-quoted argument of `wsl -e zsh -l -i -c`, doubling inner single
quotes (PowerShell-literal escaping). -/
def wrap_for_wsl (inner : String) : String :=
  "wsl -e zsh -l -i -c " ++ squoteS ++ doubleSquotes inner ++ squoteS

/-- `connection._build_remote_cmd_for_path`: the per-dialect remote
command string (`None` = macOS POSIX, `WSL`, `POWERSHELL`). -/
def build_remote_cmd_for_path (cfg : Config) (p : PyPath) (withTool : Bool)
    (tool : String) (shell : Option Shell) : String :=
  match shell with
  | some Shell.POWERSHELL =>
      let winPath := wsl_path_to_windows p
      joinSep "; "
        (["cd " ++ squoteS ++ winPath ++ squoteS] ++
          [if withTool then tool else "powershell"])
  | some Shell.WSL =>
      let inner := joinSep " && "
        (["cd " ++ escape_shell_path p, "export TMPDIR=$(mktemp -d)"] ++
          [if withTool then tool else "exec zsh"])
      wrap_for_wsl inner
  | none =>
      let setup := build_remote_setup_commands p cfg.unlockKeychain cfg.keychainCommand
      if withTool then setup ++ " && zsh -l -i -c " ++ shlexQuote tool
      else setup ++ " && zsh -l -i"

/-- `connection.build_ssh_command`. -/
def build_ssh_command (sshKey : PyPath) (userHost : String) : List String :=
  ["ssh", "-i", pathStr sshKey, userHost, "-t"]

/-- Oracle for `subprocess.run` exit codes of the interactive
ssh / coding-tool invocations. -/
structure RunEnv where
  runResult : List String → Int

/-- `connection.validate_ssh_key`: the key file exists. -/
def validate_ssh_key (fs : FS) (key : PyPath) : Bool := fs.exst key

/-- `connection.connect_to_remote`.  Returns the exit code and the list
of argument vectors handed to `subprocess.run` (empty when validation
fails before any subprocess is spawned). -/
def connect_to_remote (cfg : Config) (fs : FS) (renv : RunEnv)
    (repoName wtName : String) (withTool : Bool) (sshKey : PyPath)
    (userHost : String) (remoteBase : PyPath) (tool : String)
    (shell : Option Shell) : Int × List (List String) :=
  if ¬ validate_ssh_key fs sshKey then (1, [])
  else
    let remotePath := joinName (joinName remoteBase repoName) wtName
    let remoteCmd := build_remote_cmd_for_path cfg remotePath withTool tool shell
    let sshCmd := build_ssh_command sshKey userHost ++ [remoteCmd]
    (renv.runResult sshCmd, [sshCmd])

/-- `connection.connect_to_remote_home`: no target path.  Under
PowerShell the code sends no remote command at all (plain interactive
SSH); under WSL it enters the WSL login shell; otherwise keychain and
`TMPDIR` setup precede the interactive login shell. -/
def connect_to_remote_home (fs : FS) (renv : RunEnv) (sshKey : PyPath)
    (userHost : String) (unlock : Bool) (kc : Option String)
    (shell : Option Shell) : Int × List (List String) :=
  if ¬ validate_ssh_key fs sshKey then (1, [])
  else
    let remoteCmd : Option String :=
      match shell with
      | some Shell.POWERSHELL => none
      | some Shell.WSL => some "wsl -e zsh -l -i"
      | none =>
          some (joinSep " && "
            ((match kc, unlock with
              | some k, true => [k]
              | _, _ => []) ++
              ["export TMPDIR=$(mktemp -d)", "zsh -l -i"]))
    let sshCmd := build_ssh_command sshKey userHost ++ remoteCmd.toList
    (renv.runResult sshCmd, [sshCmd])

/-- `connection.connect_locally`: run the bare tool command with the
worktree as working directory; exit code 1 (no subprocess) when the
worktree directory is missing. -/
def connect_locally (fs : FS) (renv : RunEnv) (worktreePath : PyPath)
    (tool : String) : Int × List (List String) :=
  if ¬ fs.isDir worktreePath then (1, [])
  else (renv.runResult [tool], [[tool]])

/-- `connection.connect_to_remote_path`. -/
def connect_to_remote_path (cfg : Config) (fs : FS) (renv : RunEnv)
    (remotePath : PyPath) (withTool : Bool) (sshKey : PyPath)
    (userHost : String) (tool : String) (shell : Option Shell) :
    Int × List (List String) :=
  if ¬ validate_ssh_key fs sshKey then (1, [])
  else
    let remoteCmd := build_remote_cmd_for_path cfg remotePath withTool tool shell
    let sshCmd := build_ssh_command sshKey userHost ++ [remoteCmd]
    (renv.runResult sshCmd, [sshCmd])

/-! ## Git operations (`src/vibe/git_ops.py`) -/

/-- `git_ops.WorktreeStatus`. -/
inductive WorktreeStatus where
  | EXISTS_VALID
  | EXISTS_INVALID
  | NOT_EXISTS
deriving DecidableEq, Repr

/-- Oracle for the git state consulted by `git_ops`:
`localBranches` backs both `branch_exists_local` (membership) and
`get_local_branches` (listing); `remoteBranches` (short names with the
`origin/` prefix, as `git branch -r` prints them) backs both
`branch_exists_remote` and `get_remote_branches`; `addResult` is the
outcome of a `git worktree add` invocation (`none` = exit 0, `some e` =
failure with stripped stderr `e`); `worktreeStdout` is the raw output of
`git worktree list`. -/
structure GitEnv where
  localBranches : List String
  remoteBranches : List String
  addResult : List String → Option String
  worktreeStdout : String

/-- `git_ops.branch_exists_local`: `git show-ref refs/heads/<b>`. -/
def branch_exists_local (env : GitEnv) (b : String) : Bool :=
  decide (b ∈ env.localBranches)

/-- `git_ops.branch_exists_remote`: normalises the name to the
`origin/`-prefixed short form and checks `refs/remotes/<...>`. -/
def branch_exists_remote (env : GitEnv) (b : String) : Bool :=
  let short := if strStarts b "origin/" then b else "origin/" ++ b
  decide (short ∈ env.remoteBranches)

/-- `git_ops.get_local_branches`. -/
def get_local_branches (env : GitEnv) : List String := env.localBranches

/-- `git_ops.get_remote_branches`. -/
def get_remote_branches (env : GitEnv) : List String := env.remoteBranches

/-- `git_ops.check_worktree_exists`: filesystem existence first, then a
substring check of the rendered path against the raw `git worktree
list` output (this is literally `str(worktree_path) in result.stdout`
in the source). -/
def check_worktree_exists (env : GitEnv) (fs : FS) (worktreeName repoName : String)
    (worktreeBase : PyPath) : WorktreeStatus :=
  let worktreePath := joinName (joinName worktreeBase repoName) worktreeName
  if ¬ fs.exst worktreePath then WorktreeStatus.NOT_EXISTS
  else if strContains env.worktreeStdout (pathStr worktreePath) then
    WorktreeStatus.EXISTS_VALID
  else WorktreeStatus.EXISTS_INVALID

/-- The `RemoteBranchNotFound` message of `create_worktree`
(enumerates the available remote branches). -/
def remoteBranchNotFoundMsg (env : GitEnv) (worktreeName : String) : String :=
  "Remote branch " ++ squoteS ++ worktreeName ++ squoteS ++ " does not exist.\n" ++
    "Available remote branches: " ++ joinSep ", " (get_remote_branches env)

/-- The `BaseBranchNotFound` message of `create_worktree`
(enumerates both the local and the remote branch lists). -/
def baseBranchNotFoundMsg (env : GitEnv) (baseBranch : String) : String :=
  "Base branch " ++ squoteS ++ baseBranch ++ squoteS ++ " does not exist.\n" ++
    "Available local branches: " ++ joinSep ", " (get_local_branches env) ++
    "\nAvailable remote branches: " ++ joinSep ", " (get_remote_branches env)

/-- The `WorktreeCreationFailed` message for the `origin/` scenario. -/
def remoteAddFailedMsg (localName worktreeName : String) (p : PyPath) (stderr : String) : String :=
  "Failed to create worktree " ++ squoteS ++ localName ++ squoteS ++ " from " ++
    "remote branch " ++ squoteS ++ worktreeName ++ squoteS ++ ".\n" ++
    "Path: " ++ pathStr p ++ "\nGit error: " ++ stderr

/-- The `WorktreeCreationFailed` message for the existing-branch scenario. -/
def existingAddFailedMsg (worktreeName : String) (p : PyPath) (stderr : String) : String :=
  "Failed to create worktree for existing branch " ++ squoteS ++ worktreeName ++
    squoteS ++ ".\nPath: " ++ pathStr p ++ "\nGit error: " ++ stderr

/-- The `WorktreeCreationFailed` message for the new-branch scenario. -/
def newAddFailedMsg (worktreeName : String) (baseBranch : Option String)
    (p : PyPath) (stderr : String) : String :=
  "Failed to create worktree " ++ squoteS ++ worktreeName ++ squoteS ++
    (match baseBranch with
     | some b => " from " ++ squoteS ++ b ++ squoteS
     | none => "") ++
    ".\nPath: " ++ pathStr p ++ "\nGit error: " ++ stderr

/-- `result.stderr.strip() if result.stderr else "Unknown error"` (the
oracle stores the stripped stderr; an empty one means no output). -/
def stderrOrUnknown (e : String) : String := if e = "" then "Unknown error" else e

/-- `git_ops.create_worktree`.  Result: the worktree path together with
the list of `git worktree add` argument vectors issued (so "no new
branch created" is visible as the absence of `-b`), or the error
message raised as `RuntimeError`. -/
def create_worktree (env : GitEnv) (worktreeName repoName : String)
    (baseBranch : Option String) (worktreeBase : PyPath) :
    Except String (PyPath × List (List String)) :=
  let repoWorktreeDir := joinName worktreeBase repoName
  if strStarts worktreeName "origin/" then
    let localBranchName := strDropN worktreeName 7
    let worktreePath := joinName repoWorktreeDir localBranchName
    if ¬ branch_exists_remote env worktreeName then
      Except.error (remoteBranchNotFoundMsg env worktreeName)
    else
      let argv := ["git", "worktree", "add", "-b", localBranchName,
        pathStr worktreePath, worktreeName]
      match env.addResult argv with
      | some e =>
          Except.error (remoteAddFailedMsg localBranchName worktreeName worktreePath
            (stderrOrUnknown e))
      | none => Except.ok (worktreePath, [argv])
  else
    let worktreePath := joinName repoWorktreeDir worktreeName
    if branch_exists_local env worktreeName then
      let argv := ["git", "worktree", "add", pathStr worktreePath, worktreeName]
      match env.addResult argv with
      | some e =>
          Except.error (existingAddFailedMsg worktreeName worktreePath
            (stderrOrUnknown e))
      | none => Except.ok (worktreePath, [argv])
    else
      match baseBranch with
      | some b =>
          if !(branch_exists_local env b) && !(branch_exists_remote env b) then
            Except.error (baseBranchNotFoundMsg env b)
          else
            let argv := ["git", "worktree", "add", "-b", worktreeName,
              pathStr worktreePath, b]
            match env.addResult argv with
            | some e =>
                Except.error (newAddFailedMsg worktreeName (some b) worktreePath
                  (stderrOrUnknown e))
            | none => Except.ok (worktreePath, [argv])
      | none =>
          let argv := ["git", "worktree", "add", "-b", worktreeName,
            pathStr worktreePath]
          match env.addResult argv with
          | some e =>
              Except.error (newAddFailedMsg worktreeName none worktreePath
                (stderrOrUnknown e))
          | none => Except.ok (worktreePath, [argv])

/-! ## Cleanup engine (`src/vibe/cleanup.py`, helpers from
`src/vibe/utils.py` and `src/vibe/git_ops.py`) -/

/-- `cleanup.CleanupStats`. -/
structure CleanupStats where
  cleaned : Nat := 0
  skipped : Nat := 0
  lingering : Nat := 0
  failed : Nat := 0
deriving DecidableEq, Repr

/-- `cleanup.RemoveResult` (plain integer class constants in the source). -/
def RemoveResult.REMOVED : Nat := 0

/-- `RemoveResult.FAILED`. -/
def RemoveResult.FAILED : Nat := 1

/-- `RemoveResult.REMOVED_WITH_PARENT`. -/
def RemoveResult.REMOVED_WITH_PARENT : Nat := 2

/-- Oracle for the external processes and failure modes the cleanup
engine meets: the configured `JUNK_FILES`, `git rev-parse
--git-common-dir` per worktree, `git worktree list --porcelain` per
repository, `git status --porcelain` emptiness per worktree, success of
`git worktree remove`, and spurious `OSError` outcomes of `rmdir` /
`shutil.rmtree` (races, permissions). -/
structure CleanupEnv where
  junk : List String
  commonDir : PyPath → Option PyPath
  worktreeList : PyPath → List PyPath
  uncommitted : PyPath → Bool
  removeOk : PyPath → PyPath → Bool
  rmdirFail : PyPath → Bool
  rmtreeFail : PyPath → Bool

/-- `utils.is_junk_file`. -/
def is_junk_file (env : CleanupEnv) (name : String) : Bool :=
  decide (name ∈ env.junk)

/-- `utils.is_directory_empty`: a directory whose children all carry
junk names (non-directories return `False`). -/
def is_directory_empty (env : CleanupEnv) (fs : FS) (d : PyPath) : Bool :=
  fs.isDir d && (fs.children d).all (fun c => is_junk_file env (nameOf c))

/-- `git_ops.has_uncommitted_changes`: `False` for a missing directory,
otherwise the porcelain-status oracle. -/
def has_uncommitted_changes (env : CleanupEnv) (fs : FS) (p : PyPath) : Bool :=
  fs.isDir p && env.uncommitted p

/-- The junk-file sweep `for junk in JUNK_FILES: ... unlink()` executed
before an `rmdir`: removes the junk-named file entries directly under
`d` (`unlink` only removes non-directories). -/
def unlinkJunk (env : CleanupEnv) (fs : FS) (d : PyPath) : FS :=
  { fs with files := fs.files.filter (fun q => !(env.junk.any (fun j => q == joinName d j))) }

/-- Whether `d.rmdir()` succeeds: the directory exists, holds no
entries, and no external failure (`OSError`) intervenes. -/
def rmdirOk (env : CleanupEnv) (fs : FS) (d : PyPath) : Bool :=
  fs.isDir d && (fs.dirs ++ fs.files).all (fun q => !(strictUnderB d q)) &&
    !(env.rmdirFail d)

/-- `cleanup.remove_worktree`: `FAILED` when `repo_root` is not a
directory or `git worktree remove` fails; on success the worktree
subtree is gone and, when the parent is empty ignoring junk, junk is
stripped and the parent `rmdir` attempted — its failure is swallowed
(`REMOVED`). -/
def remove_worktree (env : CleanupEnv) (worktreePath repoRoot : PyPath) (fs : FS) :
    Nat × FS :=
  if ¬ fs.isDir repoRoot then (RemoveResult.FAILED, fs)
  else if ¬ env.removeOk worktreePath repoRoot then (RemoveResult.FAILED, fs)
  else
    let fs1 := fs.removeTree worktreePath
    let parentDir := parentOf worktreePath
    if is_directory_empty env fs1 parentDir then
      let fs2 := unlinkJunk env fs1 parentDir
      if rmdirOk env fs2 parentDir then
        (RemoveResult.REMOVED_WITH_PARENT, fs2.removeDirOnly parentDir)
      else (RemoveResult.REMOVED, fs2)
    else (RemoveResult.REMOVED, fs1)

/-- `cleanup.cleanup_lingering_directory`: empty (ignoring junk) →
strip junk and `rmdir`; otherwise `shutil.rmtree`.  `False` on an
`OSError`. -/
def cleanup_lingering_directory (env : CleanupEnv) (d : PyPath) (fs : FS) :
    Bool × FS :=
  if is_directory_empty env fs d then
    let fs1 := unlinkJunk env fs d
    if rmdirOk env fs1 d then (true, fs1.removeDirOnly d) else (false, fs1)
  else if env.rmtreeFail d then (false, fs)
  else (true, fs.removeTree d)

/-- The original-repo discovery loop of `clean_all_worktrees`: first
child directory with a `.git` marker whose `git rev-parse
--git-common-dir` resolves; the original repo is the common dir's
parent. -/
def findOrigGo (env : CleanupEnv) (fs : FS) : List PyPath → Option PyPath
  | [] => none
  | c :: rest =>
      if fs.isDir c && fs.exst (joinName c ".git") then
        match env.commonDir c with
        | some cd => some (parentOf cd)
        | none => findOrigGo env fs rest
      else findOrigGo env fs rest

/-- Original-repo discovery over the repo directory's children. -/
def findOrig (env : CleanupEnv) (fs : FS) (repoDir : PyPath) : Option PyPath :=
  findOrigGo env fs (sortPaths (fs.children repoDir))

/-- One iteration of the valid-worktree pass of `clean_all_worktrees`:
skip entries outside the managed repo directory, record the rest in the
valid set, skip-count the uncommitted ones, remove the others. -/
def validStep (env : CleanupEnv) (mdir orig : PyPath)
    (acc : List PyPath × CleanupStats × FS) (wt : PyPath) :
    List PyPath × CleanupStats × FS :=
  let (valid, stats, fs) := acc
  if ¬ underB mdir wt then acc
  else
    let valid' := valid ++ [wt]
    if has_uncommitted_changes env fs wt then
      (valid', { stats with skipped := stats.skipped + 1 }, fs)
    else
      let r := remove_worktree env wt orig fs
      if r.1 = RemoveResult.FAILED then
        (valid', { stats with failed := stats.failed + 1 }, r.2)
      else (valid', { stats with cleaned := stats.cleaned + 1 }, r.2)

/-- One iteration of the lingering pass: only directories, only those
not already accounted for as valid worktrees. -/
def lingerStep (env : CleanupEnv) (valid : List PyPath)
    (acc : CleanupStats × FS) (d : PyPath) : CleanupStats × FS :=
  let (stats, fs) := acc
  if ¬ fs.isDir d then acc
  else if d ∈ valid then acc
  else
    let r := cleanup_lingering_directory env d fs
    if r.1 then ({ stats with lingering := stats.lingering + 1 }, r.2)
    else (stats, r.2)

/-- The final per-repo sweep: if the repo directory is now empty
(ignoring junk), strip junk and try to `rmdir` it, swallowing failure. -/
def repoEmptySweep (env : CleanupEnv) (repoDir : PyPath) (fs : FS) : FS :=
  if is_directory_empty env fs repoDir then
    let fs1 := unlinkJunk env fs repoDir
    if rmdirOk env fs1 repoDir then fs1.removeDirOnly repoDir else fs1
  else fs

/-- Processing of one repository directory inside
`clean_all_worktrees`: discover the original repo, walk its worktree
list, then clean lingering directories, then the empty-repo sweep. -/
def processRepoDir (env : CleanupEnv) (base : PyPath)
    (acc : CleanupStats × FS) (repoDir : PyPath) : CleanupStats × FS :=
  let (stats0, fs0) := acc
  let repoName := nameOf repoDir
  let mdir := joinName base repoName
  let (valid, stats1, fs1) :=
    match findOrig env fs0 repoDir with
    | none => ([], stats0, fs0)
    | some orig =>
        (env.worktreeList orig).foldl (validStep env mdir orig) ([], stats0, fs0)
  if ¬ fs1.exst repoDir then (stats1, fs1)
  else
    let acc2 := (sortPaths (fs1.children repoDir)).foldl (lingerStep env valid)
      (stats1, fs1)
    (acc2.1, repoEmptySweep env repoDir acc2.2)

/-- One iteration of the top-level repo loop (`if not repo_dir.is_dir():
continue`, checked against the live filesystem). -/
def topStep (env : CleanupEnv) (base : PyPath) (acc : CleanupStats × FS)
    (repoDir : PyPath) : CleanupStats × FS :=
  if ¬ acc.2.isDir repoDir then acc else processRepoDir env base acc repoDir

/-- `cleanup.clean_all_worktrees`: iterate the repository directories
under the worktree base (sorted, materialised up front, filtered to
live directories per iteration); a missing base yields zero stats. -/
def clean_all_worktrees (env : CleanupEnv) (base : PyPath) (fs : FS) :
    CleanupStats × FS :=
  if ¬ fs.isDir base then ({}, fs)
  else (sortPaths (fs.children base)).foldl (topStep env base) ({}, fs)

/-- `cleanup.clean_specific_worktree`: `false` when the target is not a
directory, not in the repo's live worktree list, or has uncommitted
changes; otherwise remove via `remove_worktree`. -/
def clean_specific_worktree (env : CleanupEnv) (worktreeName repoName : String)
    (repoRoot : PyPath) (worktreeBase : PyPath) (fs : FS) : Bool × FS :=
  let worktreePath := joinName (joinName worktreeBase repoName) worktreeName
  if ¬ fs.isDir worktreePath then (false, fs)
  else if ¬ decide (worktreePath ∈ env.worktreeList repoRoot) then (false, fs)
  else if has_uncommitted_changes env fs worktreePath then (false, fs)
  else
    let r := remove_worktree env worktreePath repoRoot fs
    if r.1 = RemoveResult.FAILED then (false, r.2) else (true, r.2)

/-! ## Claims about the remote command builder and connection layer -/

/-- The shape `wsl_path_to_windows` rewrites: at least three `parts`
with `parts[1] == "mnt"`. -/
def mntFormB (p : PyPath) : Bool :=
  match pyParts p with
  | _ :: "mnt" :: _ :: _ => true
  | _ => false

/-- C5: the claim states the WSL remote command is one double-quoted
argument (`wsl -e <shell> -l -i -c "..."`) with inner double quotes
escaped.  Evaluating the code at the claim's own input shows the source
instead produces a single-quoted argument (`_wrap_for_wsl` wraps in
`'...'`, doubling inner single quotes), contradicting the repository's
test `test_connection.py::TestWrapForWsl`, which asserts the
double-quoted form.  The inner chain `cd <path> && TMPDIR setup &&
cly` itself is as claimed. -/
theorem claim_C5_wrap_for_wsl_single_quotes :
    build_remote_cmd_for_path wslConfig ⟨true, ["mnt", "z", "_vibecoding", "repo", "br"]⟩
        true "cly" (some Shell.WSL) =
      "wsl -e zsh -l -i -c \x27cd /mnt/z/_vibecoding/repo/br && export TMPDIR=$(mktemp -d) && cly\x27" ∧
    strStarts
        (build_remote_cmd_for_path wslConfig ⟨true, ["mnt", "z", "_vibecoding", "repo", "br"]⟩
          true "cly" (some Shell.WSL))
        "wsl -e zsh -l -i -c \"" = false ∧
    strStarts
        (build_remote_cmd_for_path wslConfig ⟨true, ["mnt", "z", "_vibecoding", "repo", "br"]⟩
          true "cly" (some Shell.WSL))
        ("wsl -e zsh -l -i -c " ++ squoteS) = true := by
  refine ⟨by decide, by decide, by decide⟩

/-- C6: under the PowerShell dialect every `/mnt/<drive>/...` path is
rewritten to the drive-letter form, statements are chained with `;`
(never `&&`), and the builder appends the coding tool when requested or
a nested interactive `powershell` statement otherwise; in particular
`/mnt/z/_vibecoding/repo/br` becomes `Z:\_vibecoding\repo\br`. -/
theorem claim_C6_powershell_dialect :
    (∀ (d : String) (rest : List String),
      wsl_path_to_windows ⟨true, "mnt" :: d :: rest⟩ =
        strUpper d ++ ":\\" ++ joinSep "\\" rest) ∧
    (∀ (cfg : Config) (p : PyPath) (tool : String),
      build_remote_cmd_for_path cfg p true tool (some Shell.POWERSHELL) =
        "cd " ++ squoteS ++ wsl_path_to_windows p ++ squoteS ++ "; " ++ tool) ∧
    (∀ (cfg : Config) (p : PyPath) (tool : String),
      build_remote_cmd_for_path cfg p false tool (some Shell.POWERSHELL) =
        "cd " ++ squoteS ++ wsl_path_to_windows p ++ squoteS ++ "; " ++ "powershell") ∧
    wsl_path_to_windows ⟨true, ["mnt", "z", "_vibecoding", "repo", "br"]⟩ =
      "Z:\\_vibecoding\\repo\\br" ∧
    strContains
        (build_remote_cmd_for_path wslConfig ⟨true, ["mnt", "z", "_vibecoding", "repo", "br"]⟩
          true "claude --dangerously-skip-permissions" (some Shell.POWERSHELL))
        "&&" = false ∧
    strContains
        (build_remote_cmd_for_path wslConfig ⟨true, ["mnt", "z", "_vibecoding", "repo", "br"]⟩
          false "cly" (some Shell.POWERSHELL))
        "&&" = false ∧
    strContains
        (build_remote_cmd_for_path wslConfig ⟨true, ["mnt", "z", "_vibecoding", "repo", "br"]⟩
          true "claude --dangerously-skip-permissions" (some Shell.POWERSHELL))
        "; " = true := by
  refine ⟨?_, ?_, ?_, by decide, by decide, by decide, by decide⟩
  · intro d rest
    show (match ("/" :: "mnt" :: d :: rest : List String) with
      | _ :: "mnt" :: drive :: rest =>
          let restStr := joinSep "\\" rest
          if restStr = "" then strUpper drive ++ ":\\" else strUpper drive ++ ":\\" ++ restStr
      | _ => pathStr ⟨true, "mnt" :: d :: rest⟩) = _
    simp only []
    split
    · rename_i h
      rw [h]
      simp [String.append_assoc]
    · rfl
  · intro cfg p tool
    simp [build_remote_cmd_for_path, joinSep, String.append_assoc]
  · intro cfg p tool
    simp [build_remote_cmd_for_path, joinSep, String.append_assoc]

/-- C7: the claim states the PowerShell home connection issues a
PowerShell invocation carrying `-NoExit`.  Evaluating
`connect_to_remote_home` under the PowerShell dialect shows the source
appends no remote command at all (the SSH argument vector ends at
`-t`), contradicting the repository's test
`test_connection.py::TestConnectToRemoteHome::test_powershell_enters_powershell`,
which asserts the remote command `powershell -NoExit`.  The WSL and
POSIX branches behave as claimed (second and third conjuncts). -/
theorem claim_C7_powershell_home_sends_no_command :
    connect_to_remote_home ⟨[], [⟨true, ["k"]⟩]⟩ ⟨fun _ => 0⟩ ⟨true, ["k"]⟩ "admin@host"
        false none (some Shell.POWERSHELL) =
      (0, [["ssh", "-i", "/k", "admin@host", "-t"]]) ∧
    connect_to_remote_home ⟨[], [⟨true, ["k"]⟩]⟩ ⟨fun _ => 0⟩ ⟨true, ["k"]⟩ "admin@host"
        false none (some Shell.WSL) =
      (0, [["ssh", "-i", "/k", "admin@host", "-t", "wsl -e zsh -l -i"]]) ∧
    connect_to_remote_home ⟨[], [⟨true, ["k"]⟩]⟩ ⟨fun _ => 0⟩ ⟨true, ["k"]⟩ "admin@host"
        true (some "security -v unlock-keychain -p admin ~/Library/Keychains/login.keychain-db")
        none =
      (0, [["ssh", "-i", "/k", "admin@host", "-t",
        "security -v unlock-keychain -p admin ~/Library/Keychains/login.keychain-db" ++
          " && export TMPDIR=$(mktemp -d) && zsh -l -i"]]) ∧
    (((connect_to_remote_home ⟨[], [⟨true, ["k"]⟩]⟩ ⟨fun _ => 0⟩ ⟨true, ["k"]⟩ "admin@host"
        false none (some Shell.POWERSHELL)).2.all
      (fun argv => !(argv.contains "powershell -NoExit"))) = true) := by
  refine ⟨by decide, by decide, by decide, by decide⟩

/-- C9: with a missing SSH key file, all three remote connection
functions return exit code 1 with an empty subprocess trace; with a
missing worktree directory, `connect_locally` does the same. -/
theorem claim_C9_precondition_guards
    (cfg : Config) (fs : FS) (renv : RunEnv) (repoName wtName : String)
    (withTool : Bool) (sshKey : PyPath) (userHost : String)
    (remoteBase remotePath worktreePath : PyPath) (tool : String)
    (shell : Option Shell) (unlock : Bool) (kc : Option String) :
    (fs.exst sshKey = false →
      connect_to_remote cfg fs renv repoName wtName withTool sshKey userHost
          remoteBase tool shell = (1, []) ∧
      connect_to_remote_home fs renv sshKey userHost unlock kc shell = (1, []) ∧
      connect_to_remote_path cfg fs renv remotePath withTool sshKey userHost
          tool shell = (1, [])) ∧
    (fs.isDir worktreePath = false →
      connect_locally fs renv worktreePath tool = (1, [])) := by
  constructor
  · intro h
    refine ⟨?_, ?_, ?_⟩ <;>
      simp [connect_to_remote, connect_to_remote_home, connect_to_remote_path,
        validate_ssh_key, h]
  · intro h
    simp [connect_locally, h]

/-- Witness for C9 at a concrete empty filesystem. -/
theorem claim_C9_witness :
    connect_to_remote macosConfig ⟨[], []⟩ ⟨fun _ => 0⟩ "repo" "branch" true
        ⟨true, ["nokey"]⟩ "user@host" ⟨true, ["remote"]⟩ "cly" none = (1, []) ∧
    connect_to_remote_home ⟨[], []⟩ ⟨fun _ => 0⟩ ⟨true, ["nokey"]⟩ "user@host"
        false none none = (1, []) ∧
    connect_to_remote_path macosConfig ⟨[], []⟩ ⟨fun _ => 0⟩ ⟨true, ["remote"]⟩ true
        ⟨true, ["nokey"]⟩ "user@host" "cly" none = (1, []) ∧
    connect_locally ⟨[], []⟩ ⟨fun _ => 0⟩ ⟨true, ["wt"]⟩ "cly" = (1, []) := by
  have h := claim_C9_precondition_guards macosConfig ⟨[], []⟩ ⟨fun _ => 0⟩ "repo"
    "branch" true ⟨true, ["nokey"]⟩ "user@host" ⟨true, ["remote"]⟩ ⟨true, ["remote"]⟩
    ⟨true, ["wt"]⟩ "cly" none false none
  have h1 := h.1 (by decide)
  exact ⟨h1.1, h1.2.1, h1.2.2, h.2 (by decide)⟩

/-- C10: for every path not of the `/mnt/<drive>/...` form (second
`parts` entry not `mnt`, or fewer than three `parts`),
`wsl_path_to_windows` returns the rendered POSIX path unchanged, and
the PowerShell dialect command embeds that original path verbatim
inside the single-quoted `cd` argument. -/
theorem claim_C10_non_mount_path_fallback
    (p : PyPath) (h : mntFormB p = false) (cfg : Config) (tool : String) :
    wsl_path_to_windows p = pathStr p ∧
    build_remote_cmd_for_path cfg p true tool (some Shell.POWERSHELL) =
      "cd " ++ squoteS ++ pathStr p ++ squoteS ++ "; " ++ tool := by
  have hw : wsl_path_to_windows p = pathStr p := by
    unfold wsl_path_to_windows
    split
    · rename_i heq
      exfalso
      have : mntFormB p = true := by
        unfold mntFormB
        rw [heq]
        rfl
      simp [this] at h
    · rfl
  refine ⟨hw, ?_⟩
  simp [build_remote_cmd_for_path, joinSep, hw, String.append_assoc]

/-- Witness for C10 at `/remote/repo` (second part is `remote`). -/
theorem claim_C10_witness :
    wsl_path_to_windows ⟨true, ["remote", "repo"]⟩ = "/remote/repo" ∧
    build_remote_cmd_for_path wslConfig ⟨true, ["remote", "repo"]⟩ true "cly"
        (some Shell.POWERSHELL) =
      "cd " ++ squoteS ++ "/remote/repo" ++ squoteS ++ "; " ++ "cly" := by
  have h := claim_C10_non_mount_path_fallback ⟨true, ["remote", "repo"]⟩ (by decide)
    wslConfig "cly"
  exact ⟨h.1.trans (by decide), h.2.trans (by decide)⟩

/-! ## Claims about `git_ops.create_worktree` and
`git_ops.check_worktree_exists` -/

/-- C1: `create_worktree` follows the three-scenario priority order.
For an `origin/`-prefixed name it strips the prefix, fails with the
remote-branch-enumerating message when the remote branch is absent, and
otherwise creates a tracking branch (`-b <local>`) and worktree at
`worktree_base/repo_name/<local-name>`.  For an existing local branch
it attaches a worktree without `-b` (no new branch).  Otherwise it
creates a new branch: with a `base_branch`, it first validates it
locally or remotely — failing with the message enumerating both branch
lists — and starts the branch from it; without one, the `git worktree
add -b` command carries no start point, so the branch starts from the
current `HEAD` of `cwd`. -/
theorem claim_C1_create_worktree_priority
    (env : GitEnv) (wn rn : String) (bb : Option String) (base : PyPath) :
    (strStarts wn "origin/" = true →
      (branch_exists_remote env wn = false →
        create_worktree env wn rn bb base =
          Except.error (remoteBranchNotFoundMsg env wn)) ∧
      (branch_exists_remote env wn = true →
        env.addResult ["git", "worktree", "add", "-b", strDropN wn 7,
          pathStr (joinName (joinName base rn) (strDropN wn 7)), wn] = none →
        create_worktree env wn rn bb base =
          Except.ok (joinName (joinName base rn) (strDropN wn 7),
            [["git", "worktree", "add", "-b", strDropN wn 7,
              pathStr (joinName (joinName base rn) (strDropN wn 7)), wn]]))) ∧
    (strStarts wn "origin/" = false →
      branch_exists_local env wn = true →
      env.addResult ["git", "worktree", "add",
        pathStr (joinName (joinName base rn) wn), wn] = none →
      create_worktree env wn rn bb base =
        Except.ok (joinName (joinName base rn) wn,
          [["git", "worktree", "add",
            pathStr (joinName (joinName base rn) wn), wn]])) ∧
    (strStarts wn "origin/" = false →
      branch_exists_local env wn = false →
      ∀ b, bb = some b →
      branch_exists_local env b = false →
      branch_exists_remote env b = false →
      create_worktree env wn rn bb base =
        Except.error (baseBranchNotFoundMsg env b)) ∧
    (strStarts wn "origin/" = false →
      branch_exists_local env wn = false →
      ∀ b, bb = some b →
      (branch_exists_local env b = true ∨ branch_exists_remote env b = true) →
      env.addResult ["git", "worktree", "add", "-b", wn,
        pathStr (joinName (joinName base rn) wn), b] = none →
      create_worktree env wn rn bb base =
        Except.ok (joinName (joinName base rn) wn,
          [["git", "worktree", "add", "-b", wn,
            pathStr (joinName (joinName base rn) wn), b]])) ∧
    (strStarts wn "origin/" = false →
      branch_exists_local env wn = false →
      bb = none →
      env.addResult ["git", "worktree", "add", "-b", wn,
        pathStr (joinName (joinName base rn) wn)] = none →
      create_worktree env wn rn bb base =
        Except.ok (joinName (joinName base rn) wn,
          [["git", "worktree", "add", "-b", wn,
            pathStr (joinName (joinName base rn) wn)]])) := by
  refine ⟨fun h1 => ⟨fun h2 => ?_, fun h2 h3 => ?_⟩, fun h1 h2 h3 => ?_,
    fun h1 h2 b hb h3 h4 => ?_, fun h1 h2 b hb h3 h4 => ?_, fun h1 h2 hb h3 => ?_⟩
  · simp [create_worktree, h1, h2]
  · simp [create_worktree, h1, h2, h3]
  · simp [create_worktree, h1, h2, h3]
  · subst hb
    simp [create_worktree, h1, h2, h3, h4]
  · subst hb
    rcases h3 with h3 | h3 <;> simp [create_worktree, h1, h2, h3, h4]
  · subst hb
    simp [create_worktree, h1, h2, h3]

/-- Witness for C1: a concrete git state exercising all five branches
of the priority algorithm. -/
theorem claim_C1_witness :
    create_worktree ⟨["main", "feat"], ["origin/main", "origin/rb"], fun _ => none, ""⟩
        "origin/nope" "repo" none ⟨true, ["w"]⟩ =
      Except.error (remoteBranchNotFoundMsg
        ⟨["main", "feat"], ["origin/main", "origin/rb"], fun _ => none, ""⟩ "origin/nope") ∧
    create_worktree ⟨["main", "feat"], ["origin/main", "origin/rb"], fun _ => none, ""⟩
        "origin/rb" "repo" none ⟨true, ["w"]⟩ =
      Except.ok (⟨true, ["w", "repo", "rb"]⟩,
        [["git", "worktree", "add", "-b", "rb", "/w/repo/rb", "origin/rb"]]) ∧
    create_worktree ⟨["main", "feat"], ["origin/main", "origin/rb"], fun _ => none, ""⟩
        "feat" "repo" none ⟨true, ["w"]⟩ =
      Except.ok (⟨true, ["w", "repo", "feat"]⟩,
        [["git", "worktree", "add", "/w/repo/feat", "feat"]]) ∧
    create_worktree ⟨["main", "feat"], ["origin/main", "origin/rb"], fun _ => none, ""⟩
        "new" "repo" (some "nob") ⟨true, ["w"]⟩ =
      Except.error (baseBranchNotFoundMsg
        ⟨["main", "feat"], ["origin/main", "origin/rb"], fun _ => none, ""⟩ "nob") ∧
    create_worktree ⟨["main", "feat"], ["origin/main", "origin/rb"], fun _ => none, ""⟩
        "new" "repo" (some "main") ⟨true, ["w"]⟩ =
      Except.ok (⟨true, ["w", "repo", "new"]⟩,
        [["git", "worktree", "add", "-b", "new", "/w/repo/new", "main"]]) ∧
    create_worktree ⟨["main", "feat"], ["origin/main", "origin/rb"], fun _ => none, ""⟩
        "new" "repo" none ⟨true, ["w"]⟩ =
      Except.ok (⟨true, ["w", "repo", "new"]⟩,
        [["git", "worktree", "add", "-b", "new", "/w/repo/new"]]) := by
  refine ⟨?_, ?_, ?_, ?_, ?_, ?_⟩
  · exact ((claim_C1_create_worktree_priority _ "origin/nope" "repo" none
      ⟨true, ["w"]⟩).1 (by decide)).1 (by decide)
  · exact (((claim_C1_create_worktree_priority _ "origin/rb" "repo" none
      ⟨true, ["w"]⟩).1 (by decide)).2 (by decide) (by decide)).trans (by rfl)
  · exact ((claim_C1_create_worktree_priority _ "feat" "repo" none
      ⟨true, ["w"]⟩).2.1 (by decide) (by decide) (by decide)).trans (by rfl)
  · exact (claim_C1_create_worktree_priority _ "new" "repo" (some "nob")
      ⟨true, ["w"]⟩).2.2.1 (by decide) (by decide) "nob" rfl (by decide) (by decide)
  · exact ((claim_C1_create_worktree_priority _ "new" "repo" (some "main")
      ⟨true, ["w"]⟩).2.2.2.1 (by decide) (by decide) "main" rfl (Or.inl (by decide))
      (by decide)).trans (by rfl)
  · exact ((claim_C1_create_worktree_priority _ "new" "repo" none
      ⟨true, ["w"]⟩).2.2.2.2 (by decide) (by decide) rfl (by decide)).trans (by rfl)

/-- One line of `git worktree list` output: the rendered worktree path
followed by whitespace and commit/branch information. -/
def wtLine (e : PyPath × String) : String := pathStr e.1 ++ "  " ++ e.2

/-- The full `git worktree list` output for a given registry: one line
per registered worktree, newline-separated. -/
def renderWtList (reg : List (PyPath × String)) : String :=
  joinSep "\n" (reg.map wtLine)

/-- Each registered worktree's line occurs inside the rendered
`git worktree list` output. -/
theorem wtLine_infix_renderWtList (reg : List (PyPath × String))
    (e : PyPath × String) (he : e ∈ reg) :
    (wtLine e).data <:+: (renderWtList reg).data := by
  induction reg with
  | nil => cases he
  | cons a rest ih =>
      rcases List.mem_cons.1 he with h | h
      · subst h
        cases rest with
        | nil => exact List.infix_refl _
        | cons b bs =>
            refine ⟨[], ("\n" ++ joinSep "\n" ((b :: bs).map wtLine)).data, ?_⟩
            simp [renderWtList, joinSep, String.data_append]
      · cases rest with
        | nil => cases h
        | cons b bs =>
            have htail := ih h
            have : (renderWtList (a :: b :: bs)).data =
                (wtLine a ++ "\n").data ++ (renderWtList (b :: bs)).data := by
              simp [renderWtList, joinSep, String.data_append]
            rw [this]
            exact htail.trans (List.suffix_append _ _).isInfix

/-- C2 counterexample: the claim says a path present on disk is
`EXISTS_VALID` exactly when it is in git's live worktree registry.  The
source instead checks `str(worktree_path) in result.stdout` — raw
substring containment in the `git worktree list` output — so a
registered path that merely extends the candidate textually
(`/w/r/xy` vs candidate `/w/r/x`) makes the unregistered candidate
`EXISTS_VALID`. -/
theorem claim_C2_counterexample :
    check_worktree_exists
        ⟨[], [], fun _ => none, renderWtList [(⟨true, ["w", "r", "xy"]⟩, "abc123 [main]")]⟩
        ⟨[⟨true, ["w", "r", "x"]⟩], []⟩ "x" "r" ⟨true, ["w"]⟩ =
      WorktreeStatus.EXISTS_VALID ∧
    (⟨true, ["w", "r", "x"]⟩ : PyPath) ∉
      ([(⟨true, ["w", "r", "xy"]⟩, "abc123 [main]")].map Prod.fst) := by
  refine ⟨by decide, by decide⟩

/-- C2 (amended): `check_worktree_exists` returns `NOT_EXISTS` exactly
when the candidate path is missing from the filesystem; when the path
exists it returns `EXISTS_VALID` exactly when the rendered path occurs
as a substring of the `git worktree list` output, and `EXISTS_INVALID`
otherwise.  Registry membership implies the substring test (so every
registered, on-disk worktree is classified `EXISTS_VALID`), but the
converse can fail, as the counterexample shows. -/
theorem claim_C2_check_worktree_status
    (reg : List (PyPath × String)) (lb rb : List String)
    (ar : List String → Option String) (fs : FS) (wn rn : String) (base : PyPath) :
    (check_worktree_exists ⟨lb, rb, ar, renderWtList reg⟩ fs wn rn base =
        WorktreeStatus.NOT_EXISTS ↔
      fs.exst (joinName (joinName base rn) wn) = false) ∧
    (fs.exst (joinName (joinName base rn) wn) = true →
      ((check_worktree_exists ⟨lb, rb, ar, renderWtList reg⟩ fs wn rn base =
          WorktreeStatus.EXISTS_VALID ↔
        strContains (renderWtList reg) (pathStr (joinName (joinName base rn) wn)) = true) ∧
       (check_worktree_exists ⟨lb, rb, ar, renderWtList reg⟩ fs wn rn base =
          WorktreeStatus.EXISTS_INVALID ↔
        strContains (renderWtList reg) (pathStr (joinName (joinName base rn) wn)) = false))) ∧
    (joinName (joinName base rn) wn ∈ reg.map Prod.fst →
      strContains (renderWtList reg) (pathStr (joinName (joinName base rn) wn)) = true) := by
  refine ⟨?_, ?_, ?_⟩
  · by_cases h : fs.exst (joinName (joinName base rn) wn) = true
    · cases hc : strContains (renderWtList reg) (pathStr (joinName (joinName base rn) wn)) <;>
        simp [check_worktree_exists, h, hc]
    · simp only [Bool.not_eq_true] at h
      simp [check_worktree_exists, h]
  · intro h
    cases hc : strContains (renderWtList reg) (pathStr (joinName (joinName base rn) wn)) <;>
      simp [check_worktree_exists, h, hc]
  · intro hmem
    rcases List.mem_map.1 hmem with ⟨e, he, hfst⟩
    have hpre : (pathStr (joinName (joinName base rn) wn)).data <+: (wtLine e).data := by
      rw [← hfst]
      refine ⟨("  " ++ e.2).data, ?_⟩
      simp [wtLine, String.data_append]
    have := hpre.isInfix.trans (wtLine_infix_renderWtList reg e he)
    simpa [strContains] using this

/-- Witness for C2 at a concrete one-entry registry. -/
theorem claim_C2_witness :
    (check_worktree_exists
        ⟨[], [], fun _ => none, renderWtList [(⟨true, ["w", "r", "x"]⟩, "abc123 [x]")]⟩
        ⟨[⟨true, ["w", "r", "x"]⟩], []⟩ "x" "r" ⟨true, ["w"]⟩ =
      WorktreeStatus.EXISTS_VALID) ∧
    (check_worktree_exists
        ⟨[], [], fun _ => none, renderWtList [(⟨true, ["w", "r", "x"]⟩, "abc123 [x]")]⟩
        ⟨[], []⟩ "x" "r" ⟨true, ["w"]⟩ =
      WorktreeStatus.NOT_EXISTS) := by
  have h := claim_C2_check_worktree_status [(⟨true, ["w", "r", "x"]⟩, "abc123 [x]")]
    [] [] (fun _ => none) ⟨[⟨true, ["w", "r", "x"]⟩], []⟩ "x" "r" ⟨true, ["w"]⟩
  have h2 := claim_C2_check_worktree_status [(⟨true, ["w", "r", "x"]⟩, "abc123 [x]")]
    [] [] (fun _ => none) ⟨[], []⟩ "x" "r" ⟨true, ["w"]⟩
  constructor
  · exact ((h.2.1 (by decide)).1).2 (h.2.2 (by decide))
  · exact (h2.1).2 (by decide)

/-! ## Claims about the cleanup engine -/

/-- C4: `remove_worktree` returns `FAILED` exactly when `repo_root` is
not a directory or the external `git worktree remove` reports failure;
on success it returns `REMOVED_WITH_PARENT` exactly when the worktree's
parent is empty ignoring junk files and removing the parent (after the
junk sweep) succeeds, and otherwise plain `REMOVED` — in particular a
failing parent `rmdir` is swallowed as `REMOVED`, never reported as an
error. -/
theorem claim_C4_remove_worktree_results (env : CleanupEnv) (wt root : PyPath)
    (fs : FS) :
    ((remove_worktree env wt root fs).1 = RemoveResult.FAILED ↔
      (fs.isDir root = false ∨ env.removeOk wt root = false)) ∧
    ((remove_worktree env wt root fs).1 = RemoveResult.REMOVED_WITH_PARENT ↔
      (fs.isDir root = true ∧ env.removeOk wt root = true ∧
        is_directory_empty env (fs.removeTree wt) (parentOf wt) = true ∧
        rmdirOk env (unlinkJunk env (fs.removeTree wt) (parentOf wt)) (parentOf wt) = true)) ∧
    ((remove_worktree env wt root fs).1 = RemoveResult.REMOVED ↔
      (fs.isDir root = true ∧ env.removeOk wt root = true ∧
        (is_directory_empty env (fs.removeTree wt) (parentOf wt) = false ∨
          rmdirOk env (unlinkJunk env (fs.removeTree wt) (parentOf wt)) (parentOf wt) = false))) := by
  cases h1 : fs.isDir root <;>
    cases h2 : env.removeOk wt root <;>
      cases h3 : is_directory_empty env (fs.removeTree wt) (parentOf wt) <;>
        cases h4 : rmdirOk env (unlinkJunk env (fs.removeTree wt) (parentOf wt)) (parentOf wt) <;>
          simp [remove_worktree, h1, h2, h3, h4, RemoveResult.FAILED,
            RemoveResult.REMOVED, RemoveResult.REMOVED_WITH_PARENT]

/-! ## Path lemmas used by the cleanup proofs -/

theorem underB_iff (p q : PyPath) :
    underB p q = true ↔ (p.abs = q.abs ∧ p.comps <+: q.comps) := by
  simp [underB, List.isPrefixOf_iff_prefix]

theorem underB_refl (p : PyPath) : underB p p = true := by
  simp [underB_iff]

theorem underB_trans {p q r : PyPath} (h1 : underB p q = true)
    (h2 : underB q r = true) : underB p r = true := by
  rw [underB_iff] at *
  exact ⟨h1.1.trans h2.1, h1.2.trans h2.2⟩

theorem underB_childP (p : PyPath) (s : String) : underB p (childP p s) = true := by
  simp [underB_iff, childP, List.prefix_append]

theorem childP_ne (p : PyPath) (s : String) : childP p s ≠ p := by
  intro h
  have := congrArg (fun x => x.comps.length) h
  simp [childP] at this

theorem childP_inj {p : PyPath} {a b : String} (h : childP p a = childP p b) :
    a = b := by
  have := congrArg PyPath.comps h
  simpa [childP] using this

theorem underB_length {p q : PyPath} (h : underB p q = true) :
    p.comps.length ≤ q.comps.length :=
  ((underB_iff p q).1 h).2.length_le

theorem not_underB_of_lt {p q : PyPath} (h : q.comps.length < p.comps.length) :
    underB p q = false := by
  cases hu : underB p q
  · rfl
  · exact absurd (underB_length hu) (by omega)

theorem strictUnderB_iff (p q : PyPath) :
    strictUnderB p q = true ↔ underB p q = true ∧ q ≠ p := by
  simp [strictUnderB]

theorem strictUnderB_childP (p : PyPath) (s : String) :
    strictUnderB p (childP p s) = true :=
  (strictUnderB_iff p _).2 ⟨underB_childP p s, childP_ne p s⟩

theorem strictUnderB_length {p q : PyPath} (h : strictUnderB p q = true) :
    p.comps.length < q.comps.length := by
  rcases (strictUnderB_iff p q).1 h with ⟨hu, hne⟩
  rcases (underB_iff p q).1 hu with ⟨habs, hpre⟩
  rcases Nat.lt_or_ge p.comps.length q.comps.length with h' | h'
  · exact h'
  · exfalso
    apply hne
    have hlen : p.comps.length = q.comps.length :=
      Nat.le_antisymm hpre.length_le h'
    have := hpre.eq_of_length hlen
    cases p; cases q
    simp_all

theorem strictUnderB_of_under_strict {p q r : PyPath} (h1 : underB p q = true)
    (h2 : strictUnderB q r = true) : strictUnderB p r = true := by
  rcases (strictUnderB_iff q r).1 h2 with ⟨hu, _⟩
  refine (strictUnderB_iff p r).2 ⟨underB_trans h1 hu, ?_⟩
  intro hrp
  subst hrp
  have := strictUnderB_length h2
  have := underB_length h1
  omega

/-- Two same-depth children of the same parent relate by `underB` only
when their names agree. -/
theorem underB_childP_childP {b : PyPath} {x y : String}
    (h : underB (childP b x) (childP b y) = true) : x = y := by
  rcases (underB_iff _ _).1 h with ⟨_, hpre⟩
  have heq := hpre.eq_of_length (by simp [childP])
  simp [childP] at heq
  exact heq

/-- Two anchored prefixes of the same path carry the same name at the
shared depth. -/
theorem names_eq_of_under_under {b : PyPath} {x y : String} {q : PyPath}
    (hx : underB (childP b x) q = true) (hy : underB (childP b y) q = true) :
    x = y := by
  rcases (underB_iff _ _).1 hx with ⟨_, hpx⟩
  rcases (underB_iff _ _).1 hy with ⟨_, hpy⟩
  rcases List.prefix_or_prefix_of_prefix hpx hpy with h | h
  · have heq := h.eq_of_length (by simp [childP])
    simp [childP] at heq
    exact heq
  · have heq := h.eq_of_length (by simp [childP])
    simp [childP] at heq
    exact heq.symm

/-- Disjointness of the subtrees anchored at distinct sibling names:
anything at or below `childP b x` is not at or below `childP b y`. -/
theorem not_under_of_sibling {b : PyPath} {x y : String} (hxy : x ≠ y)
    {wt q : PyPath} (hwt : underB (childP b x) wt = true)
    (hq : underB (childP b y) q = true) : underB wt q = false := by
  cases h : underB wt q
  · rfl
  · exact absurd (names_eq_of_under_under (underB_trans hwt h) hq) hxy

theorem parentOf_childP (p : PyPath) (s : String) : parentOf (childP p s) = p := by
  cases p
  simp [parentOf, childP]

theorem nameOf_childP (p : PyPath) (s : String) : nameOf (childP p s) = s := by
  simp [nameOf, childP]

/-- A path distinct from its parent is that parent's child under its
own name. -/
theorem eq_childP_parent {q p : PyPath} (h : parentOf q = p) (hne : q ≠ p) :
    q = childP p (nameOf q) := by
  rcases q with ⟨qa, qc⟩
  have hqc : qc ≠ [] := by
    intro hnil
    apply hne
    rw [← h]
    simp [parentOf, hnil]
  rw [← h]
  simp only [childP, parentOf, nameOf, List.getLast?_eq_getLast _ hqc,
    Option.getD_some]
  rw [List.dropLast_append_getLast hqc]

/-! ## Well-formed joins and sorting lemmas -/

theorem splitComps_no_slash (l : List Char) (acc : List Char)
    (h : ∀ c ∈ l, c ≠ '/') :
    splitComps l acc = [String.mk (acc.reverse ++ l)] := by
  induction l generalizing acc with
  | nil => simp [splitComps]
  | cons c rest ih =>
      have hc : c ≠ '/' := h c (by simp)
      rw [splitComps, if_neg hc, ih _ (fun d hd => h d (by simp [hd]))]
      simp

theorem strMk_data (s : String) : String.mk s.data = s := rfl

theorem wfNameB_iff (s : String) :
    wfNameB s = true ↔ (s ≠ "" ∧ s ≠ "." ∧ '/' ∉ s.data) := by
  simp [wfNameB, and_assoc]

/-- For a well-formed component, `path / s` appends exactly that
component. -/
theorem joinName_wf (p : PyPath) {s : String} (h : wfNameB s = true) :
    joinName p s = childP p s := by
  rcases (wfNameB_iff s).1 h with ⟨h1, h2, h3⟩
  have hsegs : strSegs s = [s] := by
    have hns : ∀ c ∈ s.data, c ≠ '/' := fun c hc hce => h3 (hce ▸ hc)
    simp [strSegs, splitComps_no_slash s.data [] hns, strMk_data, h1, h2]
  unfold joinName
  split
  · rename_i heq
    exfalso
    exact h3 (by rw [heq]; simp)
  · rw [hsegs]
    rfl

theorem insertPath_perm (x : PyPath) (l : List PyPath) :
    List.Perm (insertPath x l) (x :: l) := by
  induction l with
  | nil => rfl
  | cons y ys ih =>
      rw [insertPath]
      split
      · rfl
      · exact (ih.cons y).trans (List.Perm.swap x y ys)

theorem sortPaths_perm (l : List PyPath) : List.Perm (sortPaths l) l := by
  induction l with
  | nil => rfl
  | cons x xs ih => exact (insertPath_perm x (sortPaths xs)).trans (ih.cons x)

theorem mem_sortPaths {a : PyPath} {l : List PyPath} :
    a ∈ sortPaths l ↔ a ∈ l :=
  (sortPaths_perm l).mem_iff

theorem sortPaths_nodup {l : List PyPath} (h : l.Nodup) :
    (sortPaths l).Nodup :=
  (sortPaths_perm l).nodup_iff.2 h

/-! ## Subtree preservation: processing one repository directory leaves
unrelated subtrees untouched -/

theorem filter_filter_of_imp {α : Type} (l : List α) (p σ : α → Bool)
    (h : ∀ a, p a = true → σ a = true) :
    (l.filter σ).filter p = l.filter p := by
  induction l with
  | nil => rfl
  | cons a t ih =>
      cases hσ : σ a <;> cases hp : p a <;>
        simp [List.filter_cons, hσ, hp, ih]
      exact absurd (h a hp) (by simp [hσ])

/-- The filesystem state below `rd` (directories at or below, files
strictly below) is unchanged between `fs` and `fs'`. -/
def SubtreePres (rd : PyPath) (fs fs' : FS) : Prop :=
  fs'.dirs.filter (fun q => underB rd q) = fs.dirs.filter (fun q => underB rd q) ∧
  fs'.files.filter (fun q => strictUnderB rd q) =
    fs.files.filter (fun q => strictUnderB rd q)

theorem SubtreePres.refl (rd : PyPath) (fs : FS) : SubtreePres rd fs fs :=
  ⟨rfl, rfl⟩

theorem SubtreePres.trans {rd : PyPath} {fs1 fs2 fs3 : FS}
    (h1 : SubtreePres rd fs1 fs2) (h2 : SubtreePres rd fs2 fs3) :
    SubtreePres rd fs1 fs3 :=
  ⟨h2.1.trans h1.1, h2.2.trans h1.2⟩

theorem pres_removeTree {rd w : PyPath} (fs : FS)
    (h : ∀ q, underB rd q = true → underB w q = false) :
    SubtreePres rd fs (fs.removeTree w) := by
  constructor
  · exact filter_filter_of_imp fs.dirs _ _ (fun q hq => by simp [h q hq])
  · refine filter_filter_of_imp fs.files _ _ (fun q hq => ?_)
    have := ((strictUnderB_iff rd q).1 hq).1
    simp [h q this]

theorem pres_removeDirOnly {rd d : PyPath} (fs : FS)
    (h : underB rd d = false) :
    SubtreePres rd fs (fs.removeDirOnly d) := by
  constructor
  · refine filter_filter_of_imp fs.dirs _ _ (fun q hq => ?_)
    simp only [Bool.not_eq_true']
    cases hqd : q == d
    · rfl
    · exfalso
      rw [show q = d from by simpa using hqd] at hq
      simp [hq] at h
  · rfl

theorem pres_unlinkJunk {env : CleanupEnv} {rd d : PyPath} (fs : FS)
    (h : ∀ j ∈ env.junk, strictUnderB rd (joinName d j) = false) :
    SubtreePres rd fs (unlinkJunk env fs d) := by
  constructor
  · rfl
  · refine filter_filter_of_imp fs.files _ _ (fun q hq => ?_)
    simp only [Bool.not_eq_true']
    cases hany : env.junk.any (fun j => q == joinName d j)
    · rfl
    · exfalso
      rcases List.any_eq_true.1 hany with ⟨j, hj, hqj⟩
      rw [show q = joinName d j from by simpa using hqj] at hq
      rw [h j hj] at hq
      cases hq

theorem SubtreePres.mem_dirs {rd : PyPath} {fs fs' : FS}
    (h : SubtreePres rd fs fs') {q : PyPath} (hq : underB rd q = true) :
    (q ∈ fs'.dirs ↔ q ∈ fs.dirs) := by
  constructor <;> intro hmem
  · have : q ∈ fs'.dirs.filter (fun q => underB rd q) :=
      List.mem_filter.2 ⟨hmem, hq⟩
    rw [h.1] at this
    exact (List.mem_filter.1 this).1
  · have : q ∈ fs.dirs.filter (fun q => underB rd q) :=
      List.mem_filter.2 ⟨hmem, hq⟩
    rw [← h.1] at this
    exact (List.mem_filter.1 this).1

theorem SubtreePres.mem_files {rd : PyPath} {fs fs' : FS}
    (h : SubtreePres rd fs fs') {q : PyPath} (hq : strictUnderB rd q = true) :
    (q ∈ fs'.files ↔ q ∈ fs.files) := by
  constructor <;> intro hmem
  · have : q ∈ fs'.files.filter (fun q => strictUnderB rd q) :=
      List.mem_filter.2 ⟨hmem, hq⟩
    rw [h.2] at this
    exact (List.mem_filter.1 this).1
  · have : q ∈ fs.files.filter (fun q => strictUnderB rd q) :=
      List.mem_filter.2 ⟨hmem, hq⟩
    rw [← h.2] at this
    exact (List.mem_filter.1 this).1

theorem SubtreePres.isDir_eq {rd : PyPath} {fs fs' : FS}
    (h : SubtreePres rd fs fs') {q : PyPath} (hq : underB rd q = true) :
    fs'.isDir q = fs.isDir q := by
  simp only [FS.isDir]
  exact decide_eq_decide.2 (h.mem_dirs hq)

theorem SubtreePres.exst_eq {rd : PyPath} {fs fs' : FS}
    (h : SubtreePres rd fs fs') {q : PyPath} (hq : strictUnderB rd q = true) :
    fs'.exst q = fs.exst q := by
  have hu := ((strictUnderB_iff rd q).1 hq).1
  simp only [FS.exst]
  rw [decide_eq_decide.2 (h.mem_dirs hu), decide_eq_decide.2 (h.mem_files hq)]

theorem SubtreePres.mono {rd d : PyPath} {fs fs' : FS}
    (h : SubtreePres rd fs fs') (hd : underB rd d = true) :
    SubtreePres d fs fs' := by
  constructor
  · have himp : ∀ q, underB d q = true → underB rd q = true :=
      fun q hq => underB_trans hd hq
    calc fs'.dirs.filter (fun q => underB d q)
        = (fs'.dirs.filter (fun q => underB rd q)).filter (fun q => underB d q) :=
          (filter_filter_of_imp _ _ _ himp).symm
      _ = (fs.dirs.filter (fun q => underB rd q)).filter (fun q => underB d q) := by
          rw [h.1]
      _ = fs.dirs.filter (fun q => underB d q) :=
          filter_filter_of_imp _ _ _ himp
  · have himp : ∀ q, strictUnderB d q = true → strictUnderB rd q = true :=
      fun q hq => strictUnderB_of_under_strict hd hq
    calc fs'.files.filter (fun q => strictUnderB d q)
        = (fs'.files.filter (fun q => strictUnderB rd q)).filter
            (fun q => strictUnderB d q) :=
          (filter_filter_of_imp _ _ _ himp).symm
      _ = (fs.files.filter (fun q => strictUnderB rd q)).filter
            (fun q => strictUnderB d q) := by
          rw [h.2]
      _ = fs.files.filter (fun q => strictUnderB d q) :=
          filter_filter_of_imp _ _ _ himp

theorem children_shape {fs : FS} {p q : PyPath} (h : q ∈ fs.children p) :
    parentOf q = p ∧ q ≠ p := by
  rcases List.mem_filter.1 h with ⟨_, hcond⟩
  simp only [Bool.and_eq_true, beq_iff_eq, Bool.not_eq_true', beq_eq_false_iff_ne] at hcond
  exact hcond

theorem children_entry {fs : FS} {p q : PyPath} (h : q ∈ fs.children p) :
    q ∈ fs.dirs ∨ q ∈ fs.files := by
  rcases List.mem_filter.1 h with ⟨hmem, _⟩
  simpa using List.mem_append.1 hmem

theorem strictUnder_of_parent {p q : PyPath} (hpar : parentOf q = p) (hne : q ≠ p) :
    strictUnderB p q = true := by
  rw [eq_childP_parent hpar hne]
  exact strictUnderB_childP p (nameOf q)

theorem children_strictUnder {fs : FS} {p q : PyPath} (h : q ∈ fs.children p) :
    strictUnderB p q = true :=
  strictUnder_of_parent (children_shape h).1 (children_shape h).2

theorem SubtreePres.children_eq {rd : PyPath} {fs fs' : FS}
    (h : SubtreePres rd fs fs') {d : PyPath} (hd : underB rd d = true) :
    fs'.children d = fs.children d := by
  have hφd : ∀ q : PyPath,
      (parentOf q == d && !(q == d)) = true → underB rd q = true := by
    intro q hq
    simp only [Bool.and_eq_true, beq_iff_eq, Bool.not_eq_true', beq_eq_false_iff_ne] at hq
    exact ((strictUnderB_iff rd q).1
      (strictUnderB_of_under_strict hd (strictUnder_of_parent hq.1 hq.2))).1
  have hφf : ∀ q : PyPath,
      (parentOf q == d && !(q == d)) = true → strictUnderB rd q = true := by
    intro q hq
    simp only [Bool.and_eq_true, beq_iff_eq, Bool.not_eq_true', beq_eq_false_iff_ne] at hq
    exact strictUnderB_of_under_strict hd (strictUnder_of_parent hq.1 hq.2)
  unfold FS.children
  rw [List.filter_append, List.filter_append]
  congr 1
  · calc fs'.dirs.filter _
        = (fs'.dirs.filter (fun q => underB rd q)).filter
            (fun q => parentOf q == d && !(q == d)) :=
          (filter_filter_of_imp _ _ _ hφd).symm
      _ = (fs.dirs.filter (fun q => underB rd q)).filter
            (fun q => parentOf q == d && !(q == d)) := by rw [h.1]
      _ = fs.dirs.filter _ := filter_filter_of_imp _ _ _ hφd
  · calc fs'.files.filter _
        = (fs'.files.filter (fun q => strictUnderB rd q)).filter
            (fun q => parentOf q == d && !(q == d)) :=
          (filter_filter_of_imp _ _ _ hφf).symm
      _ = (fs.files.filter (fun q => strictUnderB rd q)).filter
            (fun q => parentOf q == d && !(q == d)) := by rw [h.2]
      _ = fs.files.filter _ := filter_filter_of_imp _ _ _ hφf

theorem findOrigGo_congr {env : CleanupEnv} {fs fs' : FS} {rd : PyPath}
    (h : SubtreePres rd fs fs') (l : List PyPath)
    (hl : ∀ c ∈ l, underB rd c = true) :
    findOrigGo env fs' l = findOrigGo env fs l := by
  induction l with
  | nil => rfl
  | cons c rest ih =>
      have hc := hl c (by simp)
      have hwf : wfNameB ".git" = true := by decide
      have hgit : joinName c ".git" = childP c ".git" := joinName_wf c hwf
      have hstrict : strictUnderB rd (childP c ".git") = true :=
        strictUnderB_of_under_strict hc (strictUnderB_childP c ".git")
      have hdir : fs'.isDir c = fs.isDir c := h.isDir_eq hc
      have hex : fs'.exst (joinName c ".git") = fs.exst (joinName c ".git") := by
        rw [hgit]
        exact h.exst_eq hstrict
      rw [findOrigGo, findOrigGo, hdir, hex, ih (fun d hd => hl d (by simp [hd]))]

theorem findOrig_congr {env : CleanupEnv} {fs fs' : FS} {rd : PyPath}
    (h : SubtreePres rd fs fs') :
    findOrig env fs' rd = findOrig env fs rd := by
  unfold findOrig
  rw [h.children_eq (underB_refl rd)]
  refine findOrigGo_congr h _ (fun c hc => ?_)
  exact ((strictUnderB_iff rd c).1
    (children_strictUnder (mem_sortPaths.1 hc))).1

/-! ## Monotonicity: cleanup only increments counters and only removes
filesystem entries -/

/-- Pointwise order on cleanup statistics. -/
def statsLe (s t : CleanupStats) : Prop :=
  s.cleaned ≤ t.cleaned ∧ s.skipped ≤ t.skipped ∧ s.lingering ≤ t.lingering ∧
    s.failed ≤ t.failed

theorem statsLe_refl (s : CleanupStats) : statsLe s s := ⟨le_refl _, le_refl _, le_refl _, le_refl _⟩

theorem statsLe_trans {a b c : CleanupStats} (h1 : statsLe a b) (h2 : statsLe b c) :
    statsLe a c :=
  ⟨h1.1.trans h2.1, h1.2.1.trans h2.2.1, h1.2.2.1.trans h2.2.2.1,
    h1.2.2.2.trans h2.2.2.2⟩

/-- The filesystem `fs'` holds no entry that `fs` lacks. -/
def fsSub (fs' fs : FS) : Prop :=
  (∀ q, q ∈ fs'.dirs → q ∈ fs.dirs) ∧ (∀ q, q ∈ fs'.files → q ∈ fs.files)

theorem fsSub_refl (fs : FS) : fsSub fs fs := ⟨fun _ h => h, fun _ h => h⟩

theorem fsSub_trans {a b c : FS} (h1 : fsSub a b) (h2 : fsSub b c) : fsSub a c :=
  ⟨fun q hq => h2.1 q (h1.1 q hq), fun q hq => h2.2 q (h1.2 q hq)⟩

theorem fsSub_removeTree (fs : FS) (w : PyPath) : fsSub (fs.removeTree w) fs :=
  ⟨fun q hq => (List.mem_filter.1 hq).1, fun q hq => (List.mem_filter.1 hq).1⟩

theorem fsSub_removeDirOnly (fs : FS) (d : PyPath) : fsSub (fs.removeDirOnly d) fs :=
  ⟨fun q hq => (List.mem_filter.1 hq).1, fun _ hq => hq⟩

theorem fsSub_unlinkJunk (env : CleanupEnv) (fs : FS) (d : PyPath) :
    fsSub (unlinkJunk env fs d) fs :=
  ⟨fun _ hq => hq, fun q hq => (List.mem_filter.1 hq).1⟩

theorem fsSub_remove_worktree (env : CleanupEnv) (wt root : PyPath) (fs : FS) :
    fsSub (remove_worktree env wt root fs).2 fs := by
  unfold remove_worktree
  dsimp only
  split
  · exact fsSub_refl fs
  split
  · exact fsSub_refl fs
  split
  · split
    · exact fsSub_trans (fsSub_trans (fsSub_removeDirOnly _ _)
        (fsSub_unlinkJunk _ _ _)) (fsSub_removeTree fs wt)
    · exact fsSub_trans (fsSub_unlinkJunk _ _ _) (fsSub_removeTree fs wt)
  · exact fsSub_removeTree fs wt

theorem fsSub_cleanup_lingering (env : CleanupEnv) (d : PyPath) (fs : FS) :
    fsSub (cleanup_lingering_directory env d fs).2 fs := by
  unfold cleanup_lingering_directory
  dsimp only
  split
  · split
    · exact fsSub_trans (fsSub_removeDirOnly _ _) (fsSub_unlinkJunk _ _ _)
    · exact fsSub_unlinkJunk _ _ _
  split
  · exact fsSub_refl fs
  · exact fsSub_removeTree fs d

theorem fsSub_repoEmptySweep (env : CleanupEnv) (rd : PyPath) (fs : FS) :
    fsSub (repoEmptySweep env rd fs) fs := by
  unfold repoEmptySweep
  dsimp only
  split
  · split
    · exact fsSub_trans (fsSub_removeDirOnly _ _) (fsSub_unlinkJunk _ _ _)
    · exact fsSub_unlinkJunk _ _ _
  · exact fsSub_refl fs

/-- A fold whose every step respects a reflexive transitive relation
respects it end to end. -/
theorem foldl_rel {α σ : Type} {R : σ → σ → Prop} (hrefl : ∀ s, R s s)
    (htrans : ∀ a b c, R a b → R b c → R a c) (f : σ → α → σ)
    (hstep : ∀ s a, R s (f s a)) :
    ∀ (l : List α) (s : σ), R s (l.foldl f s) := by
  intro l
  induction l with
  | nil => intro s; exact hrefl s
  | cons a rest ih =>
      intro s
      exact htrans _ _ _ (hstep s a) (ih (f s a))

theorem validStep_mono (env : CleanupEnv) (mdir orig : PyPath)
    (acc : List PyPath × CleanupStats × FS) (wt : PyPath) :
    statsLe acc.2.1 (validStep env mdir orig acc wt).2.1 ∧
    fsSub (validStep env mdir orig acc wt).2.2 acc.2.2 := by
  rcases acc with ⟨valid, stats, fs⟩
  unfold validStep
  dsimp only
  split
  · exact ⟨statsLe_refl _, fsSub_refl _⟩
  split
  · exact ⟨⟨by simp, by simp, by simp, by simp⟩, fsSub_refl _⟩
  split
  · exact ⟨⟨by simp, by simp, by simp, by simp⟩, fsSub_remove_worktree env wt orig fs⟩
  · exact ⟨⟨by simp, by simp, by simp, by simp⟩, fsSub_remove_worktree env wt orig fs⟩

theorem lingerStep_mono (env : CleanupEnv) (valid : List PyPath)
    (acc : CleanupStats × FS) (d : PyPath) :
    statsLe acc.1 (lingerStep env valid acc d).1 ∧
    fsSub (lingerStep env valid acc d).2 acc.2 := by
  rcases acc with ⟨stats, fs⟩
  unfold lingerStep
  dsimp only
  split
  · exact ⟨statsLe_refl _, fsSub_refl _⟩
  split
  · exact ⟨statsLe_refl _, fsSub_refl _⟩
  split
  · exact ⟨⟨by simp, by simp, by simp, by simp⟩, fsSub_cleanup_lingering env d fs⟩
  · exact ⟨statsLe_refl _, fsSub_cleanup_lingering env d fs⟩

theorem validFold_mono (env : CleanupEnv) (mdir orig : PyPath)
    (wl : List PyPath) (acc : List PyPath × CleanupStats × FS) :
    statsLe acc.2.1 (wl.foldl (validStep env mdir orig) acc).2.1 ∧
    fsSub (wl.foldl (validStep env mdir orig) acc).2.2 acc.2.2 := by
  refine foldl_rel (R := fun x y : List PyPath × CleanupStats × FS =>
    statsLe x.2.1 y.2.1 ∧ fsSub y.2.2 x.2.2) ?_ ?_ _ ?_ wl acc
  · exact fun s => ⟨statsLe_refl _, fsSub_refl _⟩
  · exact fun a b c h1 h2 => ⟨statsLe_trans h1.1 h2.1, fsSub_trans h2.2 h1.2⟩
  · exact fun s a => validStep_mono env mdir orig s a

theorem lingerFold_mono (env : CleanupEnv) (valid : List PyPath)
    (ds : List PyPath) (acc : CleanupStats × FS) :
    statsLe acc.1 (ds.foldl (lingerStep env valid) acc).1 ∧
    fsSub (ds.foldl (lingerStep env valid) acc).2 acc.2 := by
  refine foldl_rel (R := fun x y : CleanupStats × FS =>
    statsLe x.1 y.1 ∧ fsSub y.2 x.2) ?_ ?_ _ ?_ ds acc
  · exact fun s => ⟨statsLe_refl _, fsSub_refl _⟩
  · exact fun a b c h1 h2 => ⟨statsLe_trans h1.1 h2.1, fsSub_trans h2.2 h1.2⟩
  · exact fun s a => lingerStep_mono env valid s a

theorem processRepoDir_mono (env : CleanupEnv) (base : PyPath)
    (acc : CleanupStats × FS) (repoDir : PyPath) :
    statsLe acc.1 (processRepoDir env base acc repoDir).1 ∧
    fsSub (processRepoDir env base acc repoDir).2 acc.2 := by
  rcases acc with ⟨stats0, fs0⟩
  unfold processRepoDir
  cases hfo : findOrig env fs0 repoDir with
  | none =>
      simp only [hfo]
      split
      · exact ⟨statsLe_refl _, fsSub_refl _⟩
      · have h2 := lingerFold_mono env []
          (sortPaths (fs0.children repoDir)) (stats0, fs0)
        exact ⟨h2.1, fsSub_trans (fsSub_repoEmptySweep env repoDir _) h2.2⟩
  | some orig =>
      simp only [hfo]
      have h1 := validFold_mono env (joinName base (nameOf repoDir)) orig
        (env.worktreeList orig) ([], stats0, fs0)
      split
      · exact ⟨h1.1, h1.2⟩
      · have h2 := lingerFold_mono env
          ((env.worktreeList orig).foldl
            (validStep env (joinName base (nameOf repoDir)) orig)
            ([], stats0, fs0)).1
          (sortPaths ((((env.worktreeList orig).foldl
            (validStep env (joinName base (nameOf repoDir)) orig)
            ([], stats0, fs0)).2.2).children repoDir))
          (((env.worktreeList orig).foldl
            (validStep env (joinName base (nameOf repoDir)) orig)
            ([], stats0, fs0)).2.1,
           ((env.worktreeList orig).foldl
            (validStep env (joinName base (nameOf repoDir)) orig)
            ([], stats0, fs0)).2.2)
        refine ⟨statsLe_trans h1.1 h2.1, ?_⟩
        exact fsSub_trans (fsSub_trans (fsSub_repoEmptySweep env repoDir _)
          h2.2) h1.2

theorem topStep_mono (env : CleanupEnv) (base : PyPath)
    (acc : CleanupStats × FS) (repoDir : PyPath) :
    statsLe acc.1 (topStep env base acc repoDir).1 ∧
    fsSub (topStep env base acc repoDir).2 acc.2 := by
  unfold topStep
  split
  · exact ⟨statsLe_refl _, fsSub_refl _⟩
  · exact processRepoDir_mono env base acc repoDir

theorem topFold_mono (env : CleanupEnv) (base : PyPath)
    (rds : List PyPath) (acc : CleanupStats × FS) :
    statsLe acc.1 (rds.foldl (topStep env base) acc).1 ∧
    fsSub (rds.foldl (topStep env base) acc).2 acc.2 := by
  refine foldl_rel (R := fun x y : CleanupStats × FS =>
    statsLe x.1 y.1 ∧ fsSub y.2 x.2) ?_ ?_ _ ?_ rds acc
  · exact fun s => ⟨statsLe_refl _, fsSub_refl _⟩
  · exact fun a b c h1 h2 => ⟨statsLe_trans h1.1 h2.1, fsSub_trans h2.2 h1.2⟩
  · exact fun s a => topStep_mono env base s a

/-! ## A still-present child blocks parent removal; sibling operations
do not touch it -/

theorem rmdirOk_false_of_desc {env : CleanupEnv} {fs : FS} {d q : PyPath}
    (hq : q ∈ fs.dirs) (h : strictUnderB d q = true) :
    rmdirOk env fs d = false := by
  unfold rmdirOk
  have hall : ((fs.dirs ++ fs.files).all fun p => !(strictUnderB d p)) = false :=
    List.all_eq_false.2 ⟨q, by simp [hq], by simp [h]⟩
  simp [hall]

theorem mem_removeTree_dirs {fs : FS} {w q : PyPath} (hq : q ∈ fs.dirs)
    (h : underB w q = false) : q ∈ (fs.removeTree w).dirs :=
  List.mem_filter.2 ⟨hq, by simp [h]⟩

theorem mem_removeDirOnly_dirs {fs : FS} {d q : PyPath} (hq : q ∈ fs.dirs)
    (h : q ≠ d) : q ∈ (fs.removeDirOnly d).dirs :=
  List.mem_filter.2 ⟨hq, by simp [h]⟩

theorem unlinkJunk_dirs (env : CleanupEnv) (fs : FS) (d : PyPath) :
    (unlinkJunk env fs d).dirs = fs.dirs := rfl

theorem underB_sibling_false {rdm : PyPath} {m n : String} (hmn : m ≠ n) :
    underB (childP rdm m) (childP rdm n) = false := by
  cases h : underB (childP rdm m) (childP rdm n)
  · rfl
  · exact absurd (underB_childP_childP h) hmn

theorem underB_childP_parent_false (rdm : PyPath) (m : String) :
    underB (childP rdm m) rdm = false :=
  not_underB_of_lt (by simp [childP])

/-- Removing a sibling worktree (and possibly sweeping the parent)
leaves a still-present sibling directory and the parent directory in
place: the live sibling makes `rmdir` of the parent fail. -/
theorem remove_worktree_keeps (env : CleanupEnv) (root : PyPath) (fs : FS)
    (rdm : PyPath) (m n : String) (hmn : m ≠ n)
    (hw : childP rdm n ∈ fs.dirs) :
    childP rdm n ∈ (remove_worktree env (childP rdm m) root fs).2.dirs ∧
    (rdm ∈ fs.dirs → rdm ∈ (remove_worktree env (childP rdm m) root fs).2.dirs) := by
  unfold remove_worktree
  dsimp only
  split
  · exact ⟨hw, fun h => h⟩
  split
  · exact ⟨hw, fun h => h⟩
  have hw1 : childP rdm n ∈ (fs.removeTree (childP rdm m)).dirs :=
    mem_removeTree_dirs hw (underB_sibling_false hmn)
  have hrd1 : rdm ∈ fs.dirs → rdm ∈ (fs.removeTree (childP rdm m)).dirs :=
    fun h => mem_removeTree_dirs h (underB_childP_parent_false rdm m)
  rw [parentOf_childP]
  split
  · have hw2 : childP rdm n ∈
        (unlinkJunk env (fs.removeTree (childP rdm m)) rdm).dirs := hw1
    rw [rmdirOk_false_of_desc hw2 (strictUnderB_childP rdm n)]
    simp only [Bool.false_eq_true, if_false]
    exact ⟨hw2, fun h => hrd1 h⟩
  · exact ⟨hw1, fun h => hrd1 h⟩

/-- Cleaning a sibling lingering directory leaves a distinct sibling
and the parent in place. -/
theorem cleanup_lingering_keeps (env : CleanupEnv) (fs : FS)
    (rdm : PyPath) (m n : String) (hmn : m ≠ n)
    (hw : childP rdm n ∈ fs.dirs) :
    childP rdm n ∈ (cleanup_lingering_directory env (childP rdm m) fs).2.dirs ∧
    (rdm ∈ fs.dirs →
      rdm ∈ (cleanup_lingering_directory env (childP rdm m) fs).2.dirs) := by
  unfold cleanup_lingering_directory
  dsimp only
  split
  · split
    · refine ⟨mem_removeDirOnly_dirs hw ?_, fun h => mem_removeDirOnly_dirs h ?_⟩
      · exact fun he => hmn (childP_inj he).symm
      · exact fun he => childP_ne rdm m he.symm
    · exact ⟨hw, fun h => h⟩
  split
  · exact ⟨hw, fun h => h⟩
  · refine ⟨mem_removeTree_dirs hw (underB_sibling_false hmn),
      fun h => mem_removeTree_dirs h (underB_childP_parent_false rdm m)⟩

/-- The final empty-repo sweep never removes a repo directory that
still has a live child directory. -/
theorem repoEmptySweep_keeps (env : CleanupEnv) (fs : FS) (rdm : PyPath)
    (n : String) (hw : childP rdm n ∈ fs.dirs) :
    childP rdm n ∈ (repoEmptySweep env rdm fs).dirs ∧
    (rdm ∈ fs.dirs → rdm ∈ (repoEmptySweep env rdm fs).dirs) := by
  unfold repoEmptySweep
  dsimp only
  split
  · have hw2 : childP rdm n ∈ (unlinkJunk env fs rdm).dirs := hw
    rw [rmdirOk_false_of_desc hw2 (strictUnderB_childP rdm n)]
    simp only [Bool.false_eq_true, if_false]
    exact ⟨hw2, fun h => h⟩
  · exact ⟨hw, fun h => h⟩

/-! ## Foreign repository directories never disturb a protected subtree -/

theorem strictUnderB_self_false (p : PyPath) : strictUnderB p p = false := by
  simp [strictUnderB]

theorem strict_false_of_under_false {p q : PyPath} (h : underB p q = false) :
    strictUnderB p q = false := by
  simp [strictUnderB, h]

theorem strict_childP_childP_false (b : PyPath) (r j : String) :
    strictUnderB (childP b r) (childP b j) = false := by
  by_cases hrj : r = j
  · subst hrj
    exact strictUnderB_self_false _
  · exact strict_false_of_under_false (underB_sibling_false hrj)

theorem under_region_not_rd {b : PyPath} {r y : String} (hyr : y ≠ r) {q : PyPath}
    (hq : underB (childP b y) q = true) : underB (childP b r) q = false := by
  cases h : underB (childP b r) q
  · rfl
  · exact absurd (names_eq_of_under_under h hq) (fun he => hyr he.symm)

theorem parent_in_region {b : PyPath} {y : String} {wt : PyPath}
    (hwt : underB (childP b y) wt = true) :
    parentOf wt = b ∨ underB (childP b y) (parentOf wt) = true := by
  rcases (underB_iff _ _).1 hwt with ⟨habs, hpre⟩
  rcases hpre with ⟨t, ht⟩
  cases t with
  | nil =>
      left
      have hwt' : wt = childP b y := by
        rcases wt with ⟨wa, wc⟩
        rcases b with ⟨ba, bc⟩
        simp [childP] at ht habs ⊢
        exact ⟨habs.symm, ht.symm⟩
      rw [hwt']
      exact parentOf_childP b y
  | cons a t' =>
      right
      rcases wt with ⟨wa, wc⟩
      rcases b with ⟨ba, bc⟩
      simp only [childP] at ht habs
      refine (underB_iff _ _).2 ⟨by simpa [childP, parentOf] using habs, ?_⟩
      simp only [childP, parentOf]
      rw [← ht, List.dropLast_append_of_ne_nil _ (by simp)]
      exact ⟨_, rfl⟩

theorem pres_remove_worktree_foreign {env : CleanupEnv} {b : PyPath}
    {r y : String} (hyr : y ≠ r) {wt root : PyPath}
    (hwt : underB (childP b y) wt = true)
    (hjunk : ∀ j ∈ env.junk, wfNameB j = true) (fs : FS) :
    SubtreePres (childP b r) fs (remove_worktree env wt root fs).2 := by
  unfold remove_worktree
  dsimp only
  split
  · exact SubtreePres.refl _ _
  split
  · exact SubtreePres.refl _ _
  have h1 : SubtreePres (childP b r) fs (fs.removeTree wt) :=
    pres_removeTree fs (fun q hq => not_under_of_sibling hyr hwt hq)
  have hparent := parent_in_region hwt
  have h2 : underB (childP b r) (parentOf wt) = false := by
    rcases hparent with hp | hp
    · rw [hp]
      exact underB_childP_parent_false b r
    · exact under_region_not_rd hyr hp
  have h3 : ∀ j ∈ env.junk,
      strictUnderB (childP b r) (joinName (parentOf wt) j) = false := by
    intro j hj
    rw [joinName_wf _ (hjunk j hj)]
    rcases hparent with hp | hp
    · rw [hp]
      exact strict_childP_childP_false b r j
    · exact strict_false_of_under_false
        (under_region_not_rd hyr (underB_trans hp (underB_childP _ j)))
  split
  · split
    · exact (h1.trans (pres_unlinkJunk _ h3)).trans (pres_removeDirOnly _ h2)
    · exact h1.trans (pres_unlinkJunk _ h3)
  · exact h1

theorem pres_cleanup_lingering_foreign {env : CleanupEnv} {b : PyPath}
    {r y : String} (hyr : y ≠ r) {d : PyPath}
    (hd : underB (childP b y) d = true)
    (hjunk : ∀ j ∈ env.junk, wfNameB j = true) (fs : FS) :
    SubtreePres (childP b r) fs (cleanup_lingering_directory env d fs).2 := by
  unfold cleanup_lingering_directory
  dsimp only
  have h2 : underB (childP b r) d = false := under_region_not_rd hyr hd
  have h3 : ∀ j ∈ env.junk,
      strictUnderB (childP b r) (joinName d j) = false := by
    intro j hj
    rw [joinName_wf _ (hjunk j hj)]
    exact strict_false_of_under_false
      (under_region_not_rd hyr (underB_trans hd (underB_childP _ j)))
  split
  · split
    · exact (pres_unlinkJunk fs h3).trans (pres_removeDirOnly _ h2)
    · exact pres_unlinkJunk fs h3
  split
  · exact SubtreePres.refl _ _
  · exact pres_removeTree fs (fun q hq => not_under_of_sibling hyr hd hq)

theorem pres_repoEmptySweep_foreign {env : CleanupEnv} {b : PyPath}
    {r y : String} (hyr : y ≠ r)
    (hjunk : ∀ j ∈ env.junk, wfNameB j = true) (fs : FS) :
    SubtreePres (childP b r) fs (repoEmptySweep env (childP b y) fs) := by
  unfold repoEmptySweep
  dsimp only
  have h2 : underB (childP b r) (childP b y) = false :=
    underB_sibling_false (fun he => hyr he.symm)
  have h3 : ∀ j ∈ env.junk,
      strictUnderB (childP b r) (joinName (childP b y) j) = false := by
    intro j hj
    rw [joinName_wf _ (hjunk j hj)]
    exact strict_false_of_under_false
      (under_region_not_rd hyr (underB_childP (childP b y) j))
  split
  · split
    · exact (pres_unlinkJunk fs h3).trans (pres_removeDirOnly _ h2)
    · exact pres_unlinkJunk fs h3
  · exact SubtreePres.refl _ _

theorem validStep_pres_foreign {env : CleanupEnv} {b : PyPath}
    {r y : String} (hyr : y ≠ r) (orig : PyPath)
    (hjunk : ∀ j ∈ env.junk, wfNameB j = true)
    (acc : List PyPath × CleanupStats × FS) (wt : PyPath) :
    SubtreePres (childP b r) acc.2.2
      (validStep env (childP b y) orig acc wt).2.2 := by
  rcases acc with ⟨valid, stats, fs⟩
  unfold validStep
  dsimp only
  split
  · exact SubtreePres.refl _ _
  rename_i hfilter
  have hwt : underB (childP b y) wt = true := by
    revert hfilter
    cases underB (childP b y) wt <;> simp
  split
  · exact SubtreePres.refl _ _
  split
  · exact pres_remove_worktree_foreign hyr hwt hjunk fs
  · exact pres_remove_worktree_foreign hyr hwt hjunk fs

theorem validFold_pres_foreign {env : CleanupEnv} {b : PyPath}
    {r y : String} (hyr : y ≠ r) (orig : PyPath)
    (hjunk : ∀ j ∈ env.junk, wfNameB j = true) (wl : List PyPath) :
    ∀ (acc : List PyPath × CleanupStats × FS),
    SubtreePres (childP b r) acc.2.2
      (wl.foldl (validStep env (childP b y) orig) acc).2.2 := by
  induction wl with
  | nil => intro acc; exact SubtreePres.refl _ _
  | cons a rest ih =>
      intro acc
      exact (validStep_pres_foreign hyr orig hjunk acc a).trans
        (ih (validStep env (childP b y) orig acc a))

theorem lingerStep_pres_foreign {env : CleanupEnv} {b : PyPath}
    {r y : String} (hyr : y ≠ r) (valid : List PyPath)
    (hjunk : ∀ j ∈ env.junk, wfNameB j = true)
    (acc : CleanupStats × FS) {d : PyPath}
    (hd : underB (childP b y) d = true) :
    SubtreePres (childP b r) acc.2 (lingerStep env valid acc d).2 := by
  rcases acc with ⟨stats, fs⟩
  unfold lingerStep
  dsimp only
  split
  · exact SubtreePres.refl _ _
  split
  · exact SubtreePres.refl _ _
  split
  · exact pres_cleanup_lingering_foreign hyr hd hjunk fs
  · exact pres_cleanup_lingering_foreign hyr hd hjunk fs

theorem lingerFold_pres_foreign {env : CleanupEnv} {b : PyPath}
    {r y : String} (hyr : y ≠ r) (valid : List PyPath)
    (hjunk : ∀ j ∈ env.junk, wfNameB j = true) (ds : List PyPath)
    (hds : ∀ d ∈ ds, underB (childP b y) d = true) :
    ∀ (acc : CleanupStats × FS),
    SubtreePres (childP b r) acc.2
      (ds.foldl (lingerStep env valid) acc).2 := by
  induction ds with
  | nil => intro acc; exact SubtreePres.refl _ _
  | cons a rest ih =>
      intro acc
      exact (lingerStep_pres_foreign hyr valid hjunk acc (hds a (by simp))).trans
        (ih (fun d hd => hds d (by simp [hd])) (lingerStep env valid acc a))

theorem processRepoDir_pres_foreign (env : CleanupEnv) (base : PyPath)
    {r : String} (acc : CleanupStats × FS) (c : PyPath)
    (hc : parentOf c = base) (hcne : c ≠ base)
    (hwfn : wfNameB (nameOf c) = true) (hname : nameOf c ≠ r)
    (hjunk : ∀ j ∈ env.junk, wfNameB j = true) :
    SubtreePres (childP base r) acc.2 (processRepoDir env base acc c).2 := by
  rcases acc with ⟨stats0, fs0⟩
  have hceq : c = childP base (nameOf c) := eq_childP_parent hc hcne
  have hmdir : joinName base (nameOf c) = childP base (nameOf c) :=
    joinName_wf base hwfn
  unfold processRepoDir
  dsimp only
  set y := nameOf c with hy
  rw [hmdir, hceq]
  cases hfo : findOrig env fs0 (childP base y) with
  | none =>
      simp only [hfo]
      split
      · exact SubtreePres.refl _ _
      · refine SubtreePres.trans ?_
          (pres_repoEmptySweep_foreign (b := base) (r := r) (y := y) hname hjunk _)
        refine lingerFold_pres_foreign (b := base) (r := r) hname [] hjunk _
          (fun d hd => ?_) (stats0, fs0)
        exact ((strictUnderB_iff _ _).1
          (children_strictUnder (mem_sortPaths.1 hd))).1
  | some orig =>
      simp only [hfo]
      have hvf := validFold_pres_foreign (b := base) (r := r) hname orig hjunk
        (env.worktreeList orig) ([], stats0, fs0)
      split
      · exact hvf
      · refine SubtreePres.trans (SubtreePres.trans hvf ?_)
          (pres_repoEmptySweep_foreign (b := base) (r := r) (y := y) hname hjunk _)
        refine lingerFold_pres_foreign (b := base) (r := r) hname _ hjunk _
          (fun d hd => ?_) _
        exact ((strictUnderB_iff _ _).1
          (children_strictUnder (mem_sortPaths.1 hd))).1

theorem topStep_pres_foreign (env : CleanupEnv) (base : PyPath) {r : String}
    (acc : CleanupStats × FS) (c : PyPath)
    (hc : parentOf c = base) (hcne : c ≠ base)
    (hwfn : wfNameB (nameOf c) = true) (hname : nameOf c ≠ r)
    (hjunk : ∀ j ∈ env.junk, wfNameB j = true) :
    SubtreePres (childP base r) acc.2 (topStep env base acc c).2 := by
  unfold topStep
  split
  · exact SubtreePres.refl _ _
  · exact processRepoDir_pres_foreign env base acc c hc hcne hwfn hname hjunk

theorem topFold_pres_foreign (env : CleanupEnv) (base : PyPath) {r : String}
    (hjunk : ∀ j ∈ env.junk, wfNameB j = true) (l : List PyPath)
    (hl : ∀ c ∈ l, parentOf c = base ∧ c ≠ base ∧ wfNameB (nameOf c) = true ∧
      nameOf c ≠ r) :
    ∀ (acc : CleanupStats × FS),
    SubtreePres (childP base r) acc.2 ((l.foldl (topStep env base) acc)).2 := by
  induction l with
  | nil => intro acc; exact SubtreePres.refl _ _
  | cons a rest ih =>
      intro acc
      obtain ⟨h1, h2, h3, h4⟩ := hl a (by simp)
      exact (topStep_pres_foreign env base acc a h1 h2 h3 h4 hjunk).trans
        (ih (fun c hc => hl c (by simp [hc])) (topStep env base acc a))

/-! ## The protected uncommitted worktree survives its own repository's
cleanup pass and is counted as skipped -/

theorem validStep_keeps_ours (env : CleanupEnv) (rdm orig : PyPath) {n : String}
    (hunc : env.uncommitted (childP rdm n) = true)
    (acc : List PyPath × CleanupStats × FS) (wt : PyPath)
    (hlay : underB rdm wt = true → ∃ m, wt = childP rdm m)
    (hw : childP rdm n ∈ acc.2.2.dirs) (hrd : rdm ∈ acc.2.2.dirs) :
    childP rdm n ∈ (validStep env rdm orig acc wt).2.2.dirs ∧
    rdm ∈ (validStep env rdm orig acc wt).2.2.dirs ∧
    (∀ v ∈ acc.1, v ∈ (validStep env rdm orig acc wt).1) := by
  rcases acc with ⟨valid, stats, fs⟩
  unfold validStep
  dsimp only
  split
  · exact ⟨hw, hrd, fun v hv => hv⟩
  rename_i hfilter
  have hmem : underB rdm wt = true := by
    revert hfilter
    cases underB rdm wt <;> simp
  obtain ⟨m, hm⟩ := hlay hmem
  subst hm
  split
  · exact ⟨hw, hrd, fun v hv => List.mem_append_left _ hv⟩
  rename_i hnu
  have hmn : m ≠ n := by
    intro he
    subst he
    apply hnu
    simp [has_uncommitted_changes, FS.isDir, hw, hunc]
  have hkeep := remove_worktree_keeps env orig fs rdm m n hmn hw
  split
  · exact ⟨hkeep.1, hkeep.2 hrd, fun v hv => List.mem_append_left _ hv⟩
  · exact ⟨hkeep.1, hkeep.2 hrd, fun v hv => List.mem_append_left _ hv⟩

theorem validStep_at_w (env : CleanupEnv) (rdm orig : PyPath) {n : String}
    (hunc : env.uncommitted (childP rdm n) = true)
    (acc : List PyPath × CleanupStats × FS)
    (hw : childP rdm n ∈ acc.2.2.dirs) :
    validStep env rdm orig acc (childP rdm n) =
      (acc.1 ++ [childP rdm n],
        { acc.2.1 with skipped := acc.2.1.skipped + 1 }, acc.2.2) := by
  rcases acc with ⟨valid, stats, fs⟩
  unfold validStep
  dsimp only
  rw [if_neg (by simp [underB_childP]), if_pos]
  simp [has_uncommitted_changes, FS.isDir, hw, hunc]

theorem validFold_keeps_ours (env : CleanupEnv) (rdm orig : PyPath) {n : String}
    (hunc : env.uncommitted (childP rdm n) = true) (wl : List PyPath)
    (hlay : ∀ wt ∈ wl, underB rdm wt = true → ∃ m, wt = childP rdm m) :
    ∀ (acc : List PyPath × CleanupStats × FS),
    childP rdm n ∈ acc.2.2.dirs → rdm ∈ acc.2.2.dirs →
    childP rdm n ∈ (wl.foldl (validStep env rdm orig) acc).2.2.dirs ∧
    rdm ∈ (wl.foldl (validStep env rdm orig) acc).2.2.dirs ∧
    (∀ v ∈ acc.1, v ∈ (wl.foldl (validStep env rdm orig) acc).1) := by
  induction wl with
  | nil => exact fun acc hw hrd => ⟨hw, hrd, fun v hv => hv⟩
  | cons a rest ih =>
      intro acc hw hrd
      have hstep := validStep_keeps_ours env rdm orig hunc acc a
        (hlay a (by simp)) hw hrd
      have hrest := ih (fun wt hwt => hlay wt (by simp [hwt]))
        (validStep env rdm orig acc a) hstep.1 hstep.2.1
      exact ⟨hrest.1, hrest.2.1, fun v hv => hrest.2.2 v (hstep.2.2 v hv)⟩

theorem validFold_skips_ours (env : CleanupEnv) (rdm orig : PyPath) {n : String}
    (hunc : env.uncommitted (childP rdm n) = true) (wl : List PyPath)
    (hlay : ∀ wt ∈ wl, underB rdm wt = true → ∃ m, wt = childP rdm m)
    (hwl : childP rdm n ∈ wl) :
    ∀ (acc : List PyPath × CleanupStats × FS),
    childP rdm n ∈ acc.2.2.dirs → rdm ∈ acc.2.2.dirs →
    childP rdm n ∈ (wl.foldl (validStep env rdm orig) acc).2.2.dirs ∧
    rdm ∈ (wl.foldl (validStep env rdm orig) acc).2.2.dirs ∧
    childP rdm n ∈ (wl.foldl (validStep env rdm orig) acc).1 ∧
    acc.2.1.skipped + 1 ≤ (wl.foldl (validStep env rdm orig) acc).2.1.skipped := by
  induction wl with
  | nil => cases hwl
  | cons a rest ih =>
      intro acc hw hrd
      rcases List.mem_cons.1 hwl with ha | ha
      · subst ha
        rw [List.foldl_cons, validStep_at_w env rdm orig hunc acc hw]
        have hkeeps := validFold_keeps_ours env rdm orig hunc rest
          (fun wt hwt => hlay wt (by simp [hwt]))
          (acc.1 ++ [childP rdm n],
            { acc.2.1 with skipped := acc.2.1.skipped + 1 }, acc.2.2) hw hrd
        have hmono := validFold_mono env rdm orig rest
          (acc.1 ++ [childP rdm n],
            { acc.2.1 with skipped := acc.2.1.skipped + 1 }, acc.2.2)
        refine ⟨hkeeps.1, hkeeps.2.1, ?_, ?_⟩
        · exact hkeeps.2.2 _ (List.mem_append_right _ (by simp))
        · exact le_trans (le_refl _) hmono.1.2.1
      · rw [List.foldl_cons]
        have hstep := validStep_keeps_ours env rdm orig hunc acc a
          (hlay a (by simp)) hw hrd
        have hmono := (validStep_mono env rdm orig acc a).1
        have hrest := ih (fun wt hwt => hlay wt (by simp [hwt])) ha
          (validStep env rdm orig acc a) hstep.1 hstep.2.1
        refine ⟨hrest.1, hrest.2.1, hrest.2.2.1, ?_⟩
        have hskip := hmono.2.1
        have hrs := hrest.2.2.2
        omega

theorem lingerStep_keeps_ours (env : CleanupEnv) (valid : List PyPath)
    {rdm : PyPath} {n : String} (hvalid : childP rdm n ∈ valid)
    (acc : CleanupStats × FS) (d : PyPath)
    (hd : parentOf d = rdm ∧ d ≠ rdm)
    (hw : childP rdm n ∈ acc.2.dirs) (hrd : rdm ∈ acc.2.dirs) :
    childP rdm n ∈ (lingerStep env valid acc d).2.dirs ∧
    rdm ∈ (lingerStep env valid acc d).2.dirs := by
  rcases acc with ⟨stats, fs⟩
  unfold lingerStep
  dsimp only
  split
  · exact ⟨hw, hrd⟩
  split
  · exact ⟨hw, hrd⟩
  rename_i hnv
  have hdne : d ≠ childP rdm n := fun he => hnv (he ▸ hvalid)
  have hdeq : d = childP rdm (nameOf d) := eq_childP_parent hd.1 hd.2
  have hmn : nameOf d ≠ n := by
    intro he
    apply hdne
    rw [hdeq, he]
  rw [hdeq]
  have hkeep := cleanup_lingering_keeps env fs rdm (nameOf d) n hmn hw
  split
  · exact ⟨hkeep.1, hkeep.2 hrd⟩
  · exact ⟨hkeep.1, hkeep.2 hrd⟩

theorem lingerFold_keeps_ours (env : CleanupEnv) (valid : List PyPath)
    {rdm : PyPath} {n : String} (hvalid : childP rdm n ∈ valid)
    (ds : List PyPath) (hds : ∀ d ∈ ds, parentOf d = rdm ∧ d ≠ rdm) :
    ∀ (acc : CleanupStats × FS),
    childP rdm n ∈ acc.2.dirs → rdm ∈ acc.2.dirs →
    childP rdm n ∈ (ds.foldl (lingerStep env valid) acc).2.dirs ∧
    rdm ∈ (ds.foldl (lingerStep env valid) acc).2.dirs := by
  induction ds with
  | nil => exact fun acc hw hrd => ⟨hw, hrd⟩
  | cons a rest ih =>
      intro acc hw hrd
      have hstep := lingerStep_keeps_ours env valid hvalid acc a (hds a (by simp))
        hw hrd
      exact ih (fun d hd => hds d (by simp [hd])) (lingerStep env valid acc a)
        hstep.1 hstep.2

/-- Our repository directory's pass: an uncommitted, registered,
managed worktree survives and bumps the skipped counter. -/
theorem processRepoDir_ours (env : CleanupEnv) (base : PyPath)
    {r n : String} (stats0 : CleanupStats) (fs0 : FS) (o : PyPath)
    (hwfr : wfNameB r = true)
    (ho : findOrig env fs0 (childP base r) = some o)
    (hwl : childP (childP base r) n ∈ env.worktreeList o)
    (hlay : ∀ wt ∈ env.worktreeList o, underB (childP base r) wt = true →
      ∃ m, wt = childP (childP base r) m)
    (hunc : env.uncommitted (childP (childP base r) n) = true)
    (hw : childP (childP base r) n ∈ fs0.dirs)
    (hrd : childP base r ∈ fs0.dirs) :
    childP (childP base r) n ∈
      (processRepoDir env base (stats0, fs0) (childP base r)).2.dirs ∧
    stats0.skipped + 1 ≤
      (processRepoDir env base (stats0, fs0) (childP base r)).1.skipped := by
  unfold processRepoDir
  dsimp only
  rw [nameOf_childP, joinName_wf base hwfr]
  simp only [ho]
  have hfold := validFold_skips_ours env (childP base r) o hunc
    (env.worktreeList o) hlay hwl ([], stats0, fs0) hw hrd
  rw [if_neg (by simp [FS.exst, hfold.2.1])]
  have hds : ∀ d ∈ sortPaths
      (((env.worktreeList o).foldl (validStep env (childP base r) o)
        ([], stats0, fs0)).2.2.children (childP base r)),
      parentOf d = childP base r ∧ d ≠ childP base r :=
    fun d hd => children_shape (mem_sortPaths.1 hd)
  have hling := lingerFold_keeps_ours env _ hfold.2.2.1 _ hds
    (((env.worktreeList o).foldl (validStep env (childP base r) o)
      ([], stats0, fs0)).2.1,
     ((env.worktreeList o).foldl (validStep env (childP base r) o)
      ([], stats0, fs0)).2.2) hfold.1 hfold.2.1
  have hlmono := lingerFold_mono env
    ((env.worktreeList o).foldl (validStep env (childP base r) o)
      ([], stats0, fs0)).1
    (sortPaths
      (((env.worktreeList o).foldl (validStep env (childP base r) o)
        ([], stats0, fs0)).2.2.children (childP base r)))
    (((env.worktreeList o).foldl (validStep env (childP base r) o)
      ([], stats0, fs0)).2.1,
     ((env.worktreeList o).foldl (validStep env (childP base r) o)
      ([], stats0, fs0)).2.2)
  have hsweep := repoEmptySweep_keeps env _ (childP base r) n hling.1
  refine ⟨hsweep.1, ?_⟩
  exact le_trans hfold.2.2.2 hlmono.1.2.1

/-- A well-formed filesystem snapshot: entries are distinct and every
path has well-formed components (as any real directory tree does). -/
def WfFS (fs : FS) : Prop :=
  (fs.dirs ++ fs.files).Nodup ∧ ∀ p ∈ fs.dirs ++ fs.files, wfPathB p = true

theorem wfNameB_nameOf {p : PyPath} (h : wfPathB p = true) (hc : p.comps ≠ []) :
    wfNameB (nameOf p) = true := by
  simp only [wfPathB, List.all_eq_true] at h
  have hmem : nameOf p ∈ p.comps := by
    rw [nameOf, List.getLast?_eq_getLast _ hc]
    exact List.getLast_mem hc
  exact h _ hmem

theorem nodup_split_not_mem {l1 l2 : List PyPath} {a : PyPath}
    (h : (l1 ++ a :: l2).Nodup) : a ∉ l1 ∧ a ∉ l2 := by
  rcases List.nodup_append.1 h with ⟨h1, h2, hdisj⟩
  exact ⟨fun hmem => hdisj hmem (by simp), (List.nodup_cons.1 h2).1⟩

/-- C3: a worktree directory with uncommitted changes is never removed.
`clean_all_worktrees` leaves the directory on disk and bumps the
`skipped` counter; `clean_specific_worktree` returns `false` leaving
the filesystem untouched.  The worktree is `worktree_base/<r>/<n>` in
the managed layout, registered in the original repository's live
worktree list, with the usual well-formedness of a real directory tree
(distinct entries, slash-free component names, junk names are plain
file names). -/
theorem claim_C3_uncommitted_never_removed
    (env : CleanupEnv) (base : PyPath) (r n : String) (fs0 : FS) (o : PyPath)
    (hwf : WfFS fs0)
    (hjunk : ∀ j ∈ env.junk, wfNameB j = true)
    (hwfr : wfNameB r = true)
    (hbase : base ∈ fs0.dirs)
    (hrd : childP base r ∈ fs0.dirs)
    (hw : childP (childP base r) n ∈ fs0.dirs)
    (ho : findOrig env fs0 (childP base r) = some o)
    (hwl : childP (childP base r) n ∈ env.worktreeList o)
    (hlay : ∀ wt ∈ env.worktreeList o, underB (childP base r) wt = true →
      parentOf wt = childP base r)
    (hunc : env.uncommitted (childP (childP base r) n) = true)
    (wname rname : String) (repoRoot worktreeBase : PyPath) (fsb : FS)
    (huncb : env.uncommitted (joinName (joinName worktreeBase rname) wname) = true) :
    (childP (childP base r) n ∈ (clean_all_worktrees env base fs0).2.dirs ∧
      1 ≤ (clean_all_worktrees env base fs0).1.skipped) ∧
    clean_specific_worktree env wname rname repoRoot worktreeBase fsb =
      (false, fsb) := by
  constructor
  · have hlay' : ∀ wt ∈ env.worktreeList o, underB (childP base r) wt = true →
        ∃ m, wt = childP (childP base r) m := by
      intro wt hwt hu
      have hpar := hlay wt hwt hu
      have hne : wt ≠ childP base r := by
        intro he
        subst he
        rw [parentOf_childP] at hpar
        exact childP_ne base r hpar.symm
      exact ⟨nameOf wt, eq_childP_parent hpar hne⟩
    unfold clean_all_worktrees
    rw [if_neg (by simp [FS.isDir, hbase])]
    have hrdch : childP base r ∈ fs0.children base := by
      refine List.mem_filter.2 ⟨List.mem_append_left _ hrd, ?_⟩
      simp [parentOf_childP, childP_ne]
    have hmem : childP base r ∈ sortPaths (fs0.children base) :=
      mem_sortPaths.2 hrdch
    obtain ⟨l1, l2, hsplit⟩ := List.append_of_mem hmem
    have hnodup : (sortPaths (fs0.children base)).Nodup :=
      sortPaths_nodup (hwf.1.filter _)
    rw [hsplit] at hnodup
    obtain ⟨hnl1, hnl2⟩ := nodup_split_not_mem hnodup
    have hforeign : ∀ c, (c ∈ l1 ∨ c ∈ l2) →
        parentOf c = base ∧ c ≠ base ∧ wfNameB (nameOf c) = true ∧
          nameOf c ≠ r := by
      intro c hc
      have hcs : c ∈ sortPaths (fs0.children base) := by
        rw [hsplit]
        rcases hc with hc | hc
        · exact List.mem_append_left _ hc
        · exact List.mem_append_right _ (by simp [hc])
      have hcch := mem_sortPaths.1 hcs
      obtain ⟨hpar, hne⟩ := children_shape hcch
      have hwfc : wfPathB c = true := by
        rcases children_entry hcch with h | h
        · exact hwf.2 c (List.mem_append_left _ h)
        · exact hwf.2 c (List.mem_append_right _ h)
      have hceq := eq_childP_parent hpar hne
      have hcomps : c.comps ≠ [] := by
        rw [hceq]
        simp [childP]
      refine ⟨hpar, hne, wfNameB_nameOf hwfc hcomps, ?_⟩
      intro hnr
      have : c = childP base r := by rw [hceq, hnr]
      rcases hc with hc | hc
      · exact hnl1 (this ▸ hc)
      · exact hnl2 (this ▸ hc)
    rw [hsplit, List.foldl_append, List.foldl_cons]
    have hpresA : SubtreePres (childP base r) fs0
        (l1.foldl (topStep env base) ({}, fs0)).2 :=
      topFold_pres_foreign env base hjunk l1
        (fun c hc => hforeign c (Or.inl hc)) ({}, fs0)
    have hrd1 : childP base r ∈ (l1.foldl (topStep env base) ({}, fs0)).2.dirs :=
      (hpresA.mem_dirs (underB_refl _)).2 hrd
    have hw1 : childP (childP base r) n ∈
        (l1.foldl (topStep env base) ({}, fs0)).2.dirs :=
      (hpresA.mem_dirs (underB_childP _ n)).2 hw
    have ho1 : findOrig env (l1.foldl (topStep env base) ({}, fs0)).2
        (childP base r) = some o := by
      rw [findOrig_congr hpresA, ho]
    have hcond : ((l1.foldl (topStep env base) ({}, fs0)).2.isDir
        (childP base r)) = true := by
      unfold FS.isDir
      exact decide_eq_true hrd1
    have hstep : topStep env base (l1.foldl (topStep env base) ({}, fs0))
        (childP base r) =
        processRepoDir env base (l1.foldl (topStep env base) ({}, fs0))
          (childP base r) := by
      simp [topStep, hcond]
    rw [hstep]
    have hours := processRepoDir_ours env base
      (l1.foldl (topStep env base) ({}, fs0)).1
      (l1.foldl (topStep env base) ({}, fs0)).2 o hwfr ho1 hwl hlay' hunc hw1 hrd1
    have hpresC : SubtreePres (childP base r)
        (processRepoDir env base (l1.foldl (topStep env base) ({}, fs0))
          (childP base r)).2
        (l2.foldl (topStep env base)
          (processRepoDir env base (l1.foldl (topStep env base) ({}, fs0))
            (childP base r))).2 :=
      topFold_pres_foreign env base hjunk l2
        (fun c hc => hforeign c (Or.inr hc)) _
    have hmonoC := topFold_mono env base l2
      (processRepoDir env base (l1.foldl (topStep env base) ({}, fs0))
        (childP base r))
    constructor
    · exact (hpresC.mem_dirs (underB_childP _ n)).2 hours.1
    · exact le_trans (le_trans (Nat.le_add_left 1 _) hours.2) hmonoC.1.2.1
  · unfold clean_specific_worktree
    dsimp only
    split
    · rfl
    split
    · rfl
    split
    · rfl
    rename_i h1 h2 h3
    exfalso
    apply h3
    simp only [Bool.not_eq_true, not_not] at h1
    simp [has_uncommitted_changes, h1, huncb]

/-- Concrete cleanup oracle for the C3 witness: one managed worktree
`/w/repo/dirty` of the original repository `/repos/proj`, with
uncommitted changes. -/
def C3env : CleanupEnv where
  junk := [".DS_Store"]
  commonDir := fun p =>
    if p = ⟨true, ["w", "repo", "dirty"]⟩ then some ⟨true, ["repos", "proj", ".git"]⟩
    else none
  worktreeList := fun p =>
    if p = ⟨true, ["repos", "proj"]⟩ then
      [⟨true, ["repos", "proj"]⟩, ⟨true, ["w", "repo", "dirty"]⟩]
    else []
  uncommitted := fun p => p == ⟨true, ["w", "repo", "dirty"]⟩
  removeOk := fun _ _ => true
  rmdirFail := fun _ => false
  rmtreeFail := fun _ => false

/-- Concrete filesystem for the C3 witness. -/
def C3fs : FS where
  dirs := [⟨true, ["w"]⟩, ⟨true, ["w", "repo"]⟩, ⟨true, ["w", "repo", "dirty"]⟩,
    ⟨true, ["repos"]⟩, ⟨true, ["repos", "proj"]⟩]
  files := [⟨true, ["w", "repo", "dirty", ".git"]⟩]

/-- Witness for C3 at the concrete one-worktree world. -/
theorem claim_C3_witness :
    (childP (childP ⟨true, ["w"]⟩ "repo") "dirty" ∈
        (clean_all_worktrees C3env ⟨true, ["w"]⟩ C3fs).2.dirs ∧
      1 ≤ (clean_all_worktrees C3env ⟨true, ["w"]⟩ C3fs).1.skipped) ∧
    clean_specific_worktree C3env "dirty" "repo" ⟨true, ["repos", "proj"]⟩
      ⟨true, ["w"]⟩ C3fs = (false, C3fs) :=
  claim_C3_uncommitted_never_removed C3env ⟨true, ["w"]⟩ "repo" "dirty" C3fs
    ⟨true, ["repos", "proj"]⟩
    ⟨by decide, by decide⟩ (by decide) (by decide) (by decide) (by decide)
    (by decide) (by decide) (by decide) (by decide) (by decide)
    "dirty" "repo" ⟨true, ["repos", "proj"]⟩ ⟨true, ["w"]⟩ C3fs (by decide)

/-! ## Filter structure: every reachable filesystem is a filtered
version of the initial one, so well-formedness is preserved -/

/-- `fs'` arises from `fs` by deleting entries (both lists are filters
of the originals). -/
def FSfilterOf (fs' fs : FS) : Prop :=
  (∃ σ, fs'.dirs = fs.dirs.filter σ) ∧ (∃ τ, fs'.files = fs.files.filter τ)

theorem filterOf_refl (fs : FS) : FSfilterOf fs fs :=
  ⟨⟨fun _ => true, (List.filter_true _).symm⟩,
   ⟨fun _ => true, (List.filter_true _).symm⟩⟩

theorem filterOf_trans {a b c : FS} (h1 : FSfilterOf a b) (h2 : FSfilterOf b c) :
    FSfilterOf a c := by
  obtain ⟨⟨σ1, hσ1⟩, ⟨τ1, hτ1⟩⟩ := h1
  obtain ⟨⟨σ2, hσ2⟩, ⟨τ2, hτ2⟩⟩ := h2
  refine ⟨⟨fun q => σ2 q && σ1 q, ?_⟩, ⟨fun q => τ2 q && τ1 q, ?_⟩⟩
  · rw [hσ1, hσ2, List.filter_filter]
    exact List.filter_congr (fun a _ => Bool.and_comm _ _)
  · rw [hτ1, hτ2, List.filter_filter]
    exact List.filter_congr (fun a _ => Bool.and_comm _ _)

theorem filterOf_removeTree (fs : FS) (w : PyPath) :
    FSfilterOf (fs.removeTree w) fs :=
  ⟨⟨_, rfl⟩, ⟨_, rfl⟩⟩

theorem filterOf_removeDirOnly (fs : FS) (d : PyPath) :
    FSfilterOf (fs.removeDirOnly d) fs :=
  ⟨⟨_, rfl⟩, ⟨fun _ => true, (List.filter_true _).symm⟩⟩

theorem filterOf_unlinkJunk (env : CleanupEnv) (fs : FS) (d : PyPath) :
    FSfilterOf (unlinkJunk env fs d) fs :=
  ⟨⟨fun _ => true, (List.filter_true _).symm⟩, ⟨_, rfl⟩⟩

theorem filterOf_remove_worktree (env : CleanupEnv) (wt root : PyPath) (fs : FS) :
    FSfilterOf (remove_worktree env wt root fs).2 fs := by
  unfold remove_worktree
  dsimp only
  split
  · exact filterOf_refl fs
  split
  · exact filterOf_refl fs
  split
  · split
    · exact filterOf_trans (filterOf_trans (filterOf_removeDirOnly _ _)
        (filterOf_unlinkJunk _ _ _)) (filterOf_removeTree fs wt)
    · exact filterOf_trans (filterOf_unlinkJunk _ _ _) (filterOf_removeTree fs wt)
  · exact filterOf_removeTree fs wt

theorem filterOf_cleanup_lingering (env : CleanupEnv) (d : PyPath) (fs : FS) :
    FSfilterOf (cleanup_lingering_directory env d fs).2 fs := by
  unfold cleanup_lingering_directory
  dsimp only
  split
  · split
    · exact filterOf_trans (filterOf_removeDirOnly _ _) (filterOf_unlinkJunk _ _ _)
    · exact filterOf_unlinkJunk _ _ _
  split
  · exact filterOf_refl fs
  · exact filterOf_removeTree fs d

theorem filterOf_validStep (env : CleanupEnv) (mdir orig : PyPath)
    (acc : List PyPath × CleanupStats × FS) (wt : PyPath) :
    FSfilterOf (validStep env mdir orig acc wt).2.2 acc.2.2 := by
  rcases acc with ⟨valid, stats, fs⟩
  unfold validStep
  dsimp only
  split
  · exact filterOf_refl fs
  split
  · exact filterOf_refl fs
  split
  · exact filterOf_remove_worktree env wt orig fs
  · exact filterOf_remove_worktree env wt orig fs

theorem filterOf_validFold (env : CleanupEnv) (mdir orig : PyPath)
    (wl : List PyPath) (acc : List PyPath × CleanupStats × FS) :
    FSfilterOf (wl.foldl (validStep env mdir orig) acc).2.2 acc.2.2 := by
  refine foldl_rel (R := fun x y : List PyPath × CleanupStats × FS =>
    FSfilterOf y.2.2 x.2.2) ?_ ?_ _ ?_ wl acc
  · exact fun s => filterOf_refl _
  · exact fun a b c h1 h2 => filterOf_trans h2 h1
  · exact fun s a => filterOf_validStep env mdir orig s a

/-- Well-formedness survives deletion-only evolution. -/
theorem WfFS_of_filterOf {fs fs' : FS} (h : WfFS fs) (hf : FSfilterOf fs' fs) :
    WfFS fs' := by
  obtain ⟨⟨σ, hσ⟩, ⟨τ, hτ⟩⟩ := hf
  obtain ⟨hnd, hwfp⟩ := h
  constructor
  · rw [hσ, hτ]
    rcases List.nodup_append.1 hnd with ⟨hd1, hd2, hdisj⟩
    refine List.nodup_append.2 ⟨hd1.filter _, hd2.filter _, ?_⟩
    intro x hx1 hx2
    exact hdisj (List.mem_filter.1 hx1).1 (List.mem_filter.1 hx2).1
  · intro p hp
    rcases List.mem_append.1 hp with hp | hp
    · rw [hσ] at hp
      exact hwfp p (List.mem_append_left _ (List.mem_filter.1 hp).1)
    · rw [hτ] at hp
      exact hwfp p (List.mem_append_right _ (List.mem_filter.1 hp).1)

/-! ## The lingering directory's subtree is untouched until its own
turn in the lingering pass, where it is removed -/

theorem pres_remove_worktree_sibling {env : CleanupEnv} (rdm : PyPath)
    {m w : String} (hne : w ≠ m) (root : PyPath)
    (hjunk : ∀ j ∈ env.junk, wfNameB j = true) (fs : FS) :
    SubtreePres (childP rdm m) fs
      (remove_worktree env (childP rdm w) root fs).2 := by
  unfold remove_worktree
  dsimp only
  split
  · exact SubtreePres.refl _ _
  split
  · exact SubtreePres.refl _ _
  have h1 : SubtreePres (childP rdm m) fs (fs.removeTree (childP rdm w)) :=
    pres_removeTree fs
      (fun q hq => not_under_of_sibling hne (underB_refl _) hq)
  rw [parentOf_childP]
  have h2 : underB (childP rdm m) rdm = false :=
    underB_childP_parent_false rdm m
  have h3 : ∀ j ∈ env.junk,
      strictUnderB (childP rdm m) (joinName rdm j) = false := by
    intro j hj
    rw [joinName_wf _ (hjunk j hj)]
    exact strict_childP_childP_false rdm m j
  split
  · split
    · exact (h1.trans (pres_unlinkJunk _ h3)).trans (pres_removeDirOnly _ h2)
    · exact h1.trans (pres_unlinkJunk _ h3)
  · exact h1

theorem pres_cleanup_lingering_sibling {env : CleanupEnv} (rdm : PyPath)
    {m x : String} (hxm : x ≠ m)
    (hjunk : ∀ j ∈ env.junk, wfNameB j = true) (fs : FS) :
    SubtreePres (childP rdm m) fs
      (cleanup_lingering_directory env (childP rdm x) fs).2 := by
  unfold cleanup_lingering_directory
  dsimp only
  have h2 : underB (childP rdm m) (childP rdm x) = false :=
    underB_sibling_false (fun he => hxm he.symm)
  have h3 : ∀ j ∈ env.junk,
      strictUnderB (childP rdm m) (joinName (childP rdm x) j) = false := by
    intro j hj
    rw [joinName_wf _ (hjunk j hj)]
    exact strict_false_of_under_false
      (under_region_not_rd hxm (underB_childP (childP rdm x) j))
  split
  · split
    · exact (pres_unlinkJunk fs h3).trans (pres_removeDirOnly _ h2)
    · exact pres_unlinkJunk fs h3
  split
  · exact SubtreePres.refl _ _
  · exact pres_removeTree fs
      (fun q hq => not_under_of_sibling hxm (underB_refl _) hq)

theorem validStep_keeps_sibling (env : CleanupEnv) (rdm orig : PyPath)
    {m : String} (hjunk : ∀ j ∈ env.junk, wfNameB j = true)
    (acc : List PyPath × CleanupStats × FS) (wt : PyPath)
    (hlay : underB rdm wt = true → ∃ w, wt = childP rdm w)
    (hne : wt ≠ childP rdm m)
    (hd : childP rdm m ∈ acc.2.2.dirs) (hrd : rdm ∈ acc.2.2.dirs) :
    childP rdm m ∈ (validStep env rdm orig acc wt).2.2.dirs ∧
    rdm ∈ (validStep env rdm orig acc wt).2.2.dirs ∧
    SubtreePres (childP rdm m) acc.2.2 (validStep env rdm orig acc wt).2.2 ∧
    (∀ v ∈ (validStep env rdm orig acc wt).1, v ∈ acc.1 ∨ v = wt) := by
  rcases acc with ⟨valid, stats, fs⟩
  unfold validStep
  dsimp only
  split
  · exact ⟨hd, hrd, SubtreePres.refl _ _, fun v hv => Or.inl hv⟩
  rename_i hfilter
  have hmem : underB rdm wt = true := by
    revert hfilter
    cases underB rdm wt <;> simp
  obtain ⟨w, hw⟩ := hlay hmem
  subst hw
  have hwm : w ≠ m := fun he => hne (by rw [he])
  have htr : ∀ v ∈ valid ++ [childP rdm w], v ∈ valid ∨ v = childP rdm w := by
    intro v hv
    rcases List.mem_append.1 hv with hv | hv
    · exact Or.inl hv
    · exact Or.inr (by simpa using hv)
  split
  · exact ⟨hd, hrd, SubtreePres.refl _ _, htr⟩
  have hkeep := remove_worktree_keeps env orig fs rdm w m hwm hd
  have hpres := pres_remove_worktree_sibling rdm hwm orig hjunk fs
  split
  · exact ⟨hkeep.1, hkeep.2 hrd, hpres, htr⟩
  · exact ⟨hkeep.1, hkeep.2 hrd, hpres, htr⟩

theorem validFold_keeps_sibling (env : CleanupEnv) (rdm orig : PyPath)
    {m : String} (hjunk : ∀ j ∈ env.junk, wfNameB j = true)
    (wl : List PyPath)
    (hlay : ∀ wt ∈ wl, underB rdm wt = true → ∃ w, wt = childP rdm w)
    (hne : ∀ wt ∈ wl, wt ≠ childP rdm m) :
    ∀ (acc : List PyPath × CleanupStats × FS),
    childP rdm m ∈ acc.2.2.dirs → rdm ∈ acc.2.2.dirs →
    childP rdm m ∈ (wl.foldl (validStep env rdm orig) acc).2.2.dirs ∧
    rdm ∈ (wl.foldl (validStep env rdm orig) acc).2.2.dirs ∧
    SubtreePres (childP rdm m) acc.2.2
      (wl.foldl (validStep env rdm orig) acc).2.2 ∧
    (∀ v ∈ (wl.foldl (validStep env rdm orig) acc).1,
      v ∈ acc.1 ∨ v ∈ wl) := by
  induction wl with
  | nil => exact fun acc hd hrd => ⟨hd, hrd, SubtreePres.refl _ _, fun v hv => Or.inl hv⟩
  | cons a rest ih =>
      intro acc hd hrd
      have hstep := validStep_keeps_sibling env rdm orig hjunk acc a
        (hlay a (by simp)) (hne a (by simp)) hd hrd
      have hrest := ih (fun wt hwt => hlay wt (by simp [hwt]))
        (fun wt hwt => hne wt (by simp [hwt]))
        (validStep env rdm orig acc a) hstep.1 hstep.2.1
      refine ⟨hrest.1, hrest.2.1, hstep.2.2.1.trans hrest.2.2.1, ?_⟩
      intro v hv
      rcases hrest.2.2.2 v hv with hv' | hv'
      · rcases hstep.2.2.2 v hv' with hv'' | hv''
        · exact Or.inl hv''
        · exact Or.inr (by simp [hv''])
      · exact Or.inr (by simp [hv'])

theorem lingerStep_keeps_sibling (env : CleanupEnv) (valid : List PyPath)
    {rdm : PyPath} {m : String} (hjunk : ∀ j ∈ env.junk, wfNameB j = true)
    (acc : CleanupStats × FS) (e : PyPath)
    (he : parentOf e = rdm ∧ e ≠ rdm) (hene : e ≠ childP rdm m)
    (hd : childP rdm m ∈ acc.2.dirs) (hrd : rdm ∈ acc.2.dirs) :
    childP rdm m ∈ (lingerStep env valid acc e).2.dirs ∧
    rdm ∈ (lingerStep env valid acc e).2.dirs ∧
    SubtreePres (childP rdm m) acc.2 (lingerStep env valid acc e).2 := by
  rcases acc with ⟨stats, fs⟩
  unfold lingerStep
  dsimp only
  split
  · exact ⟨hd, hrd, SubtreePres.refl _ _⟩
  split
  · exact ⟨hd, hrd, SubtreePres.refl _ _⟩
  have heeq : e = childP rdm (nameOf e) := eq_childP_parent he.1 he.2
  have hnm : nameOf e ≠ m := by
    intro hx
    apply hene
    rw [heeq, hx]
  have hkeep := cleanup_lingering_keeps env fs rdm (nameOf e) m hnm hd
  have hpres := pres_cleanup_lingering_sibling rdm hnm hjunk fs
  rw [heeq]
  split
  · exact ⟨hkeep.1, hkeep.2 hrd, hpres⟩
  · exact ⟨hkeep.1, hkeep.2 hrd, hpres⟩

theorem filterOf_lingerStep (env : CleanupEnv) (valid : List PyPath)
    (acc : CleanupStats × FS) (d : PyPath) :
    FSfilterOf (lingerStep env valid acc d).2 acc.2 := by
  rcases acc with ⟨stats, fs⟩
  unfold lingerStep
  dsimp only
  split
  · exact filterOf_refl fs
  split
  · exact filterOf_refl fs
  split
  · exact filterOf_cleanup_lingering env d fs
  · exact filterOf_cleanup_lingering env d fs

theorem filterOf_lingerFold (env : CleanupEnv) (valid : List PyPath)
    (ds : List PyPath) (acc : CleanupStats × FS) :
    FSfilterOf (ds.foldl (lingerStep env valid) acc).2 acc.2 := by
  refine foldl_rel (R := fun x y : CleanupStats × FS =>
    FSfilterOf y.2 x.2) ?_ ?_ _ ?_ ds acc
  · exact fun s => filterOf_refl _
  · exact fun a b c h1 h2 => filterOf_trans h2 h1
  · exact fun s a => filterOf_lingerStep env valid s a

theorem filterOf_repoEmptySweep (env : CleanupEnv) (rd : PyPath) (fs : FS) :
    FSfilterOf (repoEmptySweep env rd fs) fs := by
  unfold repoEmptySweep
  dsimp only
  split
  · split
    · exact filterOf_trans (filterOf_removeDirOnly _ _) (filterOf_unlinkJunk _ _ _)
    · exact filterOf_unlinkJunk _ _ _
  · exact filterOf_refl fs

theorem filterOf_processRepoDir (env : CleanupEnv) (base : PyPath)
    (acc : CleanupStats × FS) (rd : PyPath) :
    FSfilterOf (processRepoDir env base acc rd).2 acc.2 := by
  rcases acc with ⟨stats0, fs0⟩
  unfold processRepoDir
  dsimp only
  have h1 : FSfilterOf
      (match findOrig env fs0 rd with
        | none => (([] : List PyPath), stats0, fs0)
        | some orig =>
            (env.worktreeList orig).foldl
              (validStep env (joinName base (nameOf rd)) orig)
              ([], stats0, fs0)).2.2 fs0 := by
    cases findOrig env fs0 rd
    · exact filterOf_refl fs0
    · exact filterOf_validFold env _ _ _ _
  split
  · exact h1
  · exact filterOf_trans (filterOf_trans (filterOf_repoEmptySweep env rd _)
      (filterOf_lingerFold env _ _ _)) h1

theorem filterOf_topStep (env : CleanupEnv) (base : PyPath)
    (acc : CleanupStats × FS) (rd : PyPath) :
    FSfilterOf (topStep env base acc rd).2 acc.2 := by
  unfold topStep
  split
  · exact filterOf_refl _
  · exact filterOf_processRepoDir env base acc rd

theorem filterOf_topFold (env : CleanupEnv) (base : PyPath)
    (rds : List PyPath) (acc : CleanupStats × FS) :
    FSfilterOf (rds.foldl (topStep env base) acc).2 acc.2 := by
  refine foldl_rel (R := fun x y : CleanupStats × FS =>
    FSfilterOf y.2 x.2) ?_ ?_ _ ?_ rds acc
  · exact fun s => filterOf_refl _
  · exact fun a b c h1 h2 => filterOf_trans h2 h1
  · exact fun s a => filterOf_topStep env base s a

/-! ## Claim C8: lingering directories are removed and counted -/

theorem not_mem_removeDirOnly_self (fs : FS) (d : PyPath) :
    d ∉ (fs.removeDirOnly d).dirs := by
  intro h
  rcases List.mem_filter.1 h with ⟨_, hcond⟩
  simp at hcond

theorem not_mem_removeTree_self (fs : FS) (d : PyPath) :
    d ∉ (fs.removeTree d).dirs := by
  intro h
  rcases List.mem_filter.1 h with ⟨_, hcond⟩
  simp [underB_refl] at hcond

/-- The registry against which a repo directory's entries are judged:
the worktree list of the discovered original repository, empty when no
original is found. -/
def registeredList (env : CleanupEnv) (fs : FS) (rd : PyPath) : List PyPath :=
  match findOrig env fs rd with
  | none => []
  | some o => env.worktreeList o

theorem registeredList_congr {env : CleanupEnv} {fs fs' : FS} {rd : PyPath}
    (h : SubtreePres rd fs fs') :
    registeredList env fs' rd = registeredList env fs rd := by
  unfold registeredList
  rw [findOrig_congr h]

/-- The lingering directory `d` is empty up to junk: every entry
strictly below it is a junk-named file directly inside it. -/
def LingerEmptyCase (env : CleanupEnv) (fs : FS) (d : PyPath) : Prop :=
  env.rmdirFail d = false ∧
  ∀ q, (q ∈ fs.dirs ∨ q ∈ fs.files) → strictUnderB d q = true →
    q ∈ fs.files ∧ parentOf q = d ∧ nameOf q ∈ env.junk

/-- The lingering directory `d` is non-empty: it holds a direct child
entry whose name is not a junk marker. -/
def LingerFullCase (env : CleanupEnv) (fs : FS) (d : PyPath) : Prop :=
  env.rmtreeFail d = false ∧
  ∃ q0, (q0 ∈ fs.dirs ∨ q0 ∈ fs.files) ∧ parentOf q0 = d ∧ q0 ≠ d ∧
    nameOf q0 ∉ env.junk

/-- Either emptiness case survives any evolution that leaves the
subtree of `d` untouched. -/
theorem lingerCase_pres {env : CleanupEnv} {d : PyPath} {fs fs' : FS}
    (hpres : SubtreePres d fs fs')
    (h : LingerEmptyCase env fs d ∨ LingerFullCase env fs d) :
    LingerEmptyCase env fs' d ∨ LingerFullCase env fs' d := by
  rcases h with ⟨hfail, hA⟩ | ⟨hfail, q0, hq0m, hq0p, hq0ne, hq0j⟩
  · refine Or.inl ⟨hfail, fun q hmem hstrict => ?_⟩
    have hu : underB d q = true := ((strictUnderB_iff d q).1 hstrict).1
    have hmem0 : q ∈ fs.dirs ∨ q ∈ fs.files := by
      rcases hmem with hmem | hmem
      · exact Or.inl ((hpres.mem_dirs hu).1 hmem)
      · exact Or.inr ((hpres.mem_files hstrict).1 hmem)
    obtain ⟨hf, hp, hj⟩ := hA q hmem0 hstrict
    exact ⟨(hpres.mem_files hstrict).2 hf, hp, hj⟩
  · have hstrict : strictUnderB d q0 = true := strictUnder_of_parent hq0p hq0ne
    have hu : underB d q0 = true := ((strictUnderB_iff d q0).1 hstrict).1
    refine Or.inr ⟨hfail, q0, ?_, hq0p, hq0ne, hq0j⟩
    rcases hq0m with hq0m | hq0m
    · exact Or.inl ((hpres.mem_dirs hu).2 hq0m)
    · exact Or.inr ((hpres.mem_files hstrict).2 hq0m)

/-- An up-to-junk-empty lingering directory is removed by junk strip
plus `rmdir`. -/
theorem cleanup_lingering_removes_A (env : CleanupEnv) (d : PyPath) (fs : FS)
    (hd : d ∈ fs.dirs)
    (hfail : env.rmdirFail d = false)
    (hrich : ∀ q, (q ∈ fs.dirs ∨ q ∈ fs.files) → strictUnderB d q = true →
      q ∈ fs.files ∧ q ∉ fs.dirs ∧ parentOf q = d ∧ nameOf q ∈ env.junk ∧
        wfNameB (nameOf q) = true) :
    (cleanup_lingering_directory env d fs).1 = true ∧
    d ∉ (cleanup_lingering_directory env d fs).2.dirs := by
  have hempty : is_directory_empty env fs d = true := by
    unfold is_directory_empty
    rw [Bool.and_eq_true]
    refine ⟨by simp [FS.isDir, hd], ?_⟩
    refine List.all_eq_true.2 (fun c hc => ?_)
    have hstrict := children_strictUnder hc
    have hr := hrich c (children_entry hc) hstrict
    simp [is_junk_file, hr.2.2.2.1]
  have hok : rmdirOk env (unlinkJunk env fs d) d = true := by
    unfold rmdirOk
    rw [Bool.and_eq_true, Bool.and_eq_true]
    refine ⟨⟨?_, ?_⟩, ?_⟩
    · simp [FS.isDir, unlinkJunk, hd]
    · refine List.all_eq_true.2 (fun q hq => ?_)
      cases hstrict : strictUnderB d q
      · rfl
      exfalso
      rcases List.mem_append.1 hq with hq | hq
      · have hq' : q ∈ fs.dirs := by simpa [unlinkJunk] using hq
        exact (hrich q (Or.inl hq') hstrict).2.1 hq'
      · have hq' := List.mem_filter.1 (show q ∈ fs.files.filter
          (fun p => !(env.junk.any (fun j => p == joinName d j))) from hq)
        obtain ⟨hqf, hqpred⟩ := hq'
        obtain ⟨_, _, hqp, hqj, hqwf⟩ := hrich q (Or.inr hqf) hstrict
        have hqne : q ≠ d := ((strictUnderB_iff d q).1 hstrict).2
        have hqeq : q = childP d (nameOf q) := eq_childP_parent hqp hqne
        have hany : (env.junk.any (fun j => q == joinName d j)) = true := by
          refine List.any_eq_true.2 ⟨nameOf q, hqj, ?_⟩
          rw [joinName_wf d hqwf, ← hqeq]
          simp
        rw [hany] at hqpred
        cases hqpred
    · simp [hfail]
  unfold cleanup_lingering_directory
  rw [if_pos hempty]
  dsimp only
  rw [if_pos hok]
  exact ⟨rfl, not_mem_removeDirOnly_self _ _⟩

/-- A lingering directory holding a non-junk entry is removed
recursively. -/
theorem cleanup_lingering_removes_B (env : CleanupEnv) (d : PyPath) (fs : FS)
    (q0 : PyPath) (hfail : env.rmtreeFail d = false)
    (hq0 : q0 ∈ fs.dirs ∨ q0 ∈ fs.files)
    (hq0p : parentOf q0 = d) (hq0ne : q0 ≠ d) (hq0j : nameOf q0 ∉ env.junk) :
    (cleanup_lingering_directory env d fs).1 = true ∧
    d ∉ (cleanup_lingering_directory env d fs).2.dirs := by
  have hch : q0 ∈ fs.children d := by
    refine List.mem_filter.2 ⟨List.mem_append.2 (by simpa using hq0), ?_⟩
    simp [hq0p, hq0ne]
  have hempty : is_directory_empty env fs d = false := by
    unfold is_directory_empty
    have hall : ((fs.children d).all (fun c => is_junk_file env (nameOf c))) = false :=
      List.all_eq_false.2 ⟨q0, hch, by simp [is_junk_file, hq0j]⟩
    simp [hall]
  unfold cleanup_lingering_directory
  rw [if_neg (by simp [hempty]), if_neg (by simp [hfail])]
  exact ⟨rfl, not_mem_removeTree_self fs d⟩

/-- The lingering pass at the lingering directory itself: removal
succeeds and the counter is bumped. -/
theorem lingerStep_at_d (env : CleanupEnv) (valid : List PyPath)
    (acc : CleanupStats × FS) (d : PyPath)
    (hdnv : d ∉ valid) (hdir : d ∈ acc.2.dirs)
    (hcl : (cleanup_lingering_directory env d acc.2).1 = true ∧
      d ∉ (cleanup_lingering_directory env d acc.2).2.dirs) :
    (lingerStep env valid acc d).1.lingering = acc.1.lingering + 1 ∧
    d ∉ (lingerStep env valid acc d).2.dirs := by
  rcases acc with ⟨stats, fs⟩
  dsimp only at hdir hcl
  unfold lingerStep
  dsimp only
  rw [if_neg (by simp [FS.isDir, hdir]), if_neg hdnv, if_pos hcl.1]
  exact ⟨rfl, hcl.2⟩

theorem lingerFold_keeps_sibling (env : CleanupEnv) (valid : List PyPath)
    {rdm : PyPath} {m : String} (hjunk : ∀ j ∈ env.junk, wfNameB j = true)
    (ds : List PyPath)
    (hds : ∀ e ∈ ds, parentOf e = rdm ∧ e ≠ rdm)
    (hne : ∀ e ∈ ds, e ≠ childP rdm m) :
    ∀ (acc : CleanupStats × FS),
    childP rdm m ∈ acc.2.dirs → rdm ∈ acc.2.dirs →
    childP rdm m ∈ (ds.foldl (lingerStep env valid) acc).2.dirs ∧
    rdm ∈ (ds.foldl (lingerStep env valid) acc).2.dirs ∧
    SubtreePres (childP rdm m) acc.2 (ds.foldl (lingerStep env valid) acc).2 := by
  induction ds with
  | nil => exact fun acc hd hrd => ⟨hd, hrd, SubtreePres.refl _ _⟩
  | cons a rest ih =>
      intro acc hd hrd
      have hstep := lingerStep_keeps_sibling env valid hjunk acc a
        (hds a (by simp)) (hne a (by simp)) hd hrd
      have hrest := ih (fun e he => hds e (by simp [he]))
        (fun e he => hne e (by simp [he]))
        (lingerStep env valid acc a) hstep.1 hstep.2.1
      exact ⟨hrest.1, hrest.2.1, hstep.2.2.trans hrest.2.2⟩

/-- The lingering pass over a repo directory's sorted children removes
an unregistered directory `childP rdm m` and bumps the `lingering`
counter: junk-only directories via strip-and-`rmdir`, directories with
real content via recursive removal. -/
theorem lingerPhase_removes (env : CleanupEnv) (rdm : PyPath) {m : String}
    (valid : List PyPath) (stats1 : CleanupStats) (fs1 : FS)
    (hjunk : ∀ j ∈ env.junk, wfNameB j = true)
    (hwf1 : WfFS fs1)
    (hrd1 : rdm ∈ fs1.dirs)
    (hd1 : childP rdm m ∈ fs1.dirs)
    (hnv : childP rdm m ∉ valid)
    (hcase : LingerEmptyCase env fs1 (childP rdm m) ∨
      LingerFullCase env fs1 (childP rdm m)) :
    childP rdm m ∉ ((sortPaths (fs1.children rdm)).foldl
      (lingerStep env valid) (stats1, fs1)).2.dirs ∧
    stats1.lingering + 1 ≤ ((sortPaths (fs1.children rdm)).foldl
      (lingerStep env valid) (stats1, fs1)).1.lingering := by
  have hch : childP rdm m ∈ fs1.children rdm := by
    refine List.mem_filter.2 ⟨List.mem_append_left _ hd1, ?_⟩
    simp [parentOf_childP, childP_ne]
  have hmem : childP rdm m ∈ sortPaths (fs1.children rdm) := mem_sortPaths.2 hch
  obtain ⟨e1, e2, hsplit⟩ := List.append_of_mem hmem
  have hnodup : (sortPaths (fs1.children rdm)).Nodup :=
    sortPaths_nodup (hwf1.1.filter _)
  rw [hsplit] at hnodup
  obtain ⟨hne1, hne2⟩ := nodup_split_not_mem hnodup
  have hshape : ∀ e, (e ∈ e1 ∨ e ∈ e2) → parentOf e = rdm ∧ e ≠ rdm := by
    intro e he
    have hes : e ∈ sortPaths (fs1.children rdm) := by
      rw [hsplit]
      rcases he with he | he
      · exact List.mem_append_left _ he
      · exact List.mem_append_right _ (by simp [he])
    exact children_shape (mem_sortPaths.1 hes)
  rw [hsplit, List.foldl_append, List.foldl_cons]
  have h1 := lingerFold_keeps_sibling env valid hjunk e1
    (fun e he => hshape e (Or.inl he))
    (fun e he hee => hne1 (hee ▸ he)) (stats1, fs1) hd1 hrd1
  set accC := e1.foldl (lingerStep env valid) (stats1, fs1)
  have hpresC : SubtreePres (childP rdm m) fs1 accC.2 := h1.2.2
  have hcaseC := lingerCase_pres hpresC hcase
  have hcl : (cleanup_lingering_directory env (childP rdm m) accC.2).1 = true ∧
      childP rdm m ∉
        (cleanup_lingering_directory env (childP rdm m) accC.2).2.dirs := by
    rcases hcaseC with ⟨hfail, hA⟩ | ⟨hfail, q0, hq0m, hq0p, hq0ne, hq0j⟩
    · refine cleanup_lingering_removes_A env _ _ h1.1 hfail ?_
      intro q hm hstrict
      obtain ⟨hf, hp, hj⟩ := hA q hm hstrict
      have hu : underB (childP rdm m) q = true :=
        ((strictUnderB_iff _ q).1 hstrict).1
      have hf1 : q ∈ fs1.files := (hpresC.mem_files hstrict).1 hf
      have hnd : q ∉ accC.2.dirs := by
        intro habs
        have hq1 : q ∈ fs1.dirs := (hpresC.mem_dirs hu).1 habs
        rcases List.nodup_append.1 hwf1.1 with ⟨_, _, hdisj⟩
        exact hdisj hq1 hf1
      have hqne : q ≠ childP rdm m := ((strictUnderB_iff _ q).1 hstrict).2
      have hwfq : wfPathB q = true := hwf1.2 q (List.mem_append_right _ hf1)
      have hqc : q.comps ≠ [] := by
        rw [eq_childP_parent hp hqne]
        simp [childP]
      exact ⟨hf, hnd, hp, hj, wfNameB_nameOf hwfq hqc⟩
    · exact cleanup_lingering_removes_B env _ _ q0 hfail hq0m hq0p hq0ne hq0j
  have hstep := lingerStep_at_d env valid accC (childP rdm m) hnv h1.1 hcl
  have hmono2 := lingerFold_mono env valid e2
    (lingerStep env valid accC (childP rdm m))
  constructor
  · intro habs
    exact hstep.2 (hmono2.2.1 _ habs)
  · have hm1 : stats1.lingering ≤ accC.1.lingering :=
      (lingerFold_mono env valid e1 (stats1, fs1)).1.2.2.1
    have hm2 := hmono2.1.2.2.1
    rw [hstep.1] at hm2
    omega

/-- Processing our repository directory removes a lingering (never
registered) subdirectory and counts it. -/
theorem processRepoDir_ours_linger (env : CleanupEnv) (base : PyPath)
    {r m : String} (stats0 : CleanupStats) (fs0 : FS)
    (hwf : WfFS fs0)
    (hjunk : ∀ j ∈ env.junk, wfNameB j = true)
    (hwfr : wfNameB r = true)
    (hrd : childP base r ∈ fs0.dirs)
    (hd : childP (childP base r) m ∈ fs0.dirs)
    (hreg : ∀ wt ∈ registeredList env fs0 (childP base r),
      wt ≠ childP (childP base r) m)
    (hlay : ∀ wt ∈ registeredList env fs0 (childP base r),
      underB (childP base r) wt = true → ∃ w, wt = childP (childP base r) w)
    (hcase : LingerEmptyCase env fs0 (childP (childP base r) m) ∨
      LingerFullCase env fs0 (childP (childP base r) m)) :
    childP (childP base r) m ∉
      (processRepoDir env base (stats0, fs0) (childP base r)).2.dirs ∧
    stats0.lingering + 1 ≤
      (processRepoDir env base (stats0, fs0) (childP base r)).1.lingering := by
  unfold processRepoDir
  dsimp only
  rw [nameOf_childP, joinName_wf base hwfr]
  unfold registeredList at hreg hlay
  cases hfo : findOrig env fs0 (childP base r) with
  | none =>
      simp only [hfo]
      rw [if_neg (by simp [FS.exst, hrd])]
      have hmain := lingerPhase_removes env (childP base r) [] stats0 fs0
        hjunk hwf hrd hd (by simp) hcase
      refine ⟨?_, hmain.2⟩
      intro habs
      exact hmain.1 ((fsSub_repoEmptySweep env (childP base r) _).1 _ habs)
  | some o =>
      simp only [hfo] at hreg hlay
      simp only [hfo]
      have hfold := validFold_keeps_sibling env (childP base r) o hjunk
        (env.worktreeList o) hlay (fun wt hwt => hreg wt hwt)
        ([], stats0, fs0) hd hrd
      have hnv : childP (childP base r) m ∉
          ((env.worktreeList o).foldl (validStep env (childP base r) o)
            ([], stats0, fs0)).1 := by
        intro hv
        rcases hfold.2.2.2 _ hv with h | h
        · cases h
        · exact hreg _ h rfl
      have hwf1 : WfFS ((env.worktreeList o).foldl
          (validStep env (childP base r) o) ([], stats0, fs0)).2.2 :=
        WfFS_of_filterOf hwf (filterOf_validFold env (childP base r) o
          (env.worktreeList o) ([], stats0, fs0))
      have hcase1 := lingerCase_pres hfold.2.2.1 hcase
      rw [if_neg (by simp [FS.exst, hfold.2.1])]
      have hmain := lingerPhase_removes env (childP base r)
        ((env.worktreeList o).foldl (validStep env (childP base r) o)
          ([], stats0, fs0)).1
        ((env.worktreeList o).foldl (validStep env (childP base r) o)
          ([], stats0, fs0)).2.1
        ((env.worktreeList o).foldl (validStep env (childP base r) o)
          ([], stats0, fs0)).2.2
        hjunk hwf1 hfold.2.1 hfold.1 hnv hcase1
      have hm0 : stats0.lingering ≤
          ((env.worktreeList o).foldl (validStep env (childP base r) o)
            ([], stats0, fs0)).2.1.lingering :=
        (validFold_mono env (childP base r) o (env.worktreeList o)
          ([], stats0, fs0)).1.2.2.1
      refine ⟨?_, ?_⟩
      · intro habs
        exact hmain.1 ((fsSub_repoEmptySweep env (childP base r) _).1 _ habs)
      · exact le_trans (Nat.add_le_add_right hm0 1) hmain.2

/-- C8: a subdirectory of a repository's managed worktree directory
that is not in git's live worktree registry — a lingering directory —
is removed by `clean_all_worktrees` and counted under `lingering`:
when empty up to platform junk markers it goes via junk strip plus
plain `rmdir` (junk files never make it count as non-empty), and when
it holds any non-junk entry it goes via recursive removal. -/
theorem claim_C8_lingering_directory_removed
    (env : CleanupEnv) (base : PyPath) (r m : String) (fs0 : FS)
    (hwf : WfFS fs0)
    (hjunk : ∀ j ∈ env.junk, wfNameB j = true)
    (hwfr : wfNameB r = true)
    (hbase : base ∈ fs0.dirs)
    (hrd : childP base r ∈ fs0.dirs)
    (hd : childP (childP base r) m ∈ fs0.dirs)
    (hreg : ∀ wt ∈ registeredList env fs0 (childP base r),
      wt ≠ childP (childP base r) m)
    (hlay : ∀ wt ∈ registeredList env fs0 (childP base r),
      underB (childP base r) wt = true → parentOf wt = childP base r)
    (hcase : LingerEmptyCase env fs0 (childP (childP base r) m) ∨
      LingerFullCase env fs0 (childP (childP base r) m)) :
    childP (childP base r) m ∉ (clean_all_worktrees env base fs0).2.dirs ∧
    1 ≤ (clean_all_worktrees env base fs0).1.lingering := by
  unfold clean_all_worktrees
  rw [if_neg (by simp [FS.isDir, hbase])]
  have hrdch : childP base r ∈ fs0.children base := by
    refine List.mem_filter.2 ⟨List.mem_append_left _ hrd, ?_⟩
    simp [parentOf_childP, childP_ne]
  have hmem : childP base r ∈ sortPaths (fs0.children base) :=
    mem_sortPaths.2 hrdch
  obtain ⟨l1, l2, hsplit⟩ := List.append_of_mem hmem
  have hnodup : (sortPaths (fs0.children base)).Nodup :=
    sortPaths_nodup (hwf.1.filter _)
  rw [hsplit] at hnodup
  obtain ⟨hnl1, hnl2⟩ := nodup_split_not_mem hnodup
  have hforeign : ∀ c, (c ∈ l1 ∨ c ∈ l2) →
      parentOf c = base ∧ c ≠ base ∧ wfNameB (nameOf c) = true ∧
        nameOf c ≠ r := by
    intro c hc
    have hcs : c ∈ sortPaths (fs0.children base) := by
      rw [hsplit]
      rcases hc with hc | hc
      · exact List.mem_append_left _ hc
      · exact List.mem_append_right _ (by simp [hc])
    have hcch := mem_sortPaths.1 hcs
    obtain ⟨hpar, hne⟩ := children_shape hcch
    have hwfc : wfPathB c = true := by
      rcases children_entry hcch with h | h
      · exact hwf.2 c (List.mem_append_left _ h)
      · exact hwf.2 c (List.mem_append_right _ h)
    have hceq := eq_childP_parent hpar hne
    have hcomps : c.comps ≠ [] := by
      rw [hceq]
      simp [childP]
    refine ⟨hpar, hne, wfNameB_nameOf hwfc hcomps, ?_⟩
    intro hnr
    have : c = childP base r := by rw [hceq, hnr]
    rcases hc with hc | hc
    · exact hnl1 (this ▸ hc)
    · exact hnl2 (this ▸ hc)
  rw [hsplit, List.foldl_append, List.foldl_cons]
  have hpresA : SubtreePres (childP base r) fs0
      (l1.foldl (topStep env base) ({}, fs0)).2 :=
    topFold_pres_foreign env base hjunk l1
      (fun c hc => hforeign c (Or.inl hc)) ({}, fs0)
  have hrd1 : childP base r ∈ (l1.foldl (topStep env base) ({}, fs0)).2.dirs :=
    (hpresA.mem_dirs (underB_refl _)).2 hrd
  have hd1 : childP (childP base r) m ∈
      (l1.foldl (topStep env base) ({}, fs0)).2.dirs :=
    (hpresA.mem_dirs (underB_childP _ m)).2 hd
  have hregA : registeredList env (l1.foldl (topStep env base) ({}, fs0)).2
      (childP base r) = registeredList env fs0 (childP base r) :=
    registeredList_congr hpresA
  have hreg1 : ∀ wt ∈ registeredList env
      (l1.foldl (topStep env base) ({}, fs0)).2 (childP base r),
      wt ≠ childP (childP base r) m :=
    fun wt hwt => hreg wt (hregA ▸ hwt)
  have hlay1 : ∀ wt ∈ registeredList env
      (l1.foldl (topStep env base) ({}, fs0)).2 (childP base r),
      underB (childP base r) wt = true →
        ∃ w, wt = childP (childP base r) w := by
    intro wt hwt hu
    have hpar := hlay wt (hregA ▸ hwt) hu
    have hne : wt ≠ childP base r := by
      intro he
      subst he
      rw [parentOf_childP] at hpar
      exact childP_ne base r hpar.symm
    exact ⟨nameOf wt, eq_childP_parent hpar hne⟩
  have hwfA : WfFS (l1.foldl (topStep env base) ({}, fs0)).2 :=
    WfFS_of_filterOf hwf (filterOf_topFold env base l1 ({}, fs0))
  have hcase1 := lingerCase_pres (hpresA.mono (underB_childP _ m)) hcase
  have hcond : ((l1.foldl (topStep env base) ({}, fs0)).2.isDir
      (childP base r)) = true := by
    unfold FS.isDir
    exact decide_eq_true hrd1
  have hstep : topStep env base (l1.foldl (topStep env base) ({}, fs0))
      (childP base r) =
      processRepoDir env base (l1.foldl (topStep env base) ({}, fs0))
        (childP base r) := by
    simp [topStep, hcond]
  rw [hstep]
  have hours := processRepoDir_ours_linger env base
    (l1.foldl (topStep env base) ({}, fs0)).1
    (l1.foldl (topStep env base) ({}, fs0)).2
    hwfA hjunk hwfr hrd1 hd1 hreg1 hlay1 hcase1
  have hmonoC := topFold_mono env base l2
    (processRepoDir env base (l1.foldl (topStep env base) ({}, fs0))
      (childP base r))
  constructor
  · intro habs
    exact hours.1 (hmonoC.2.1 _ habs)
  · exact le_trans (le_trans (Nat.le_add_left 1 _) hours.2) hmonoC.1.2.2.1

/-- Concrete cleanup oracle for the C8 witness: no original repository
resolves, so nothing registers `/w/repo/stale`. -/
def C8env : CleanupEnv where
  junk := [".DS_Store"]
  commonDir := fun _ => none
  worktreeList := fun _ => []
  uncommitted := fun _ => false
  removeOk := fun _ _ => true
  rmdirFail := fun _ => false
  rmtreeFail := fun _ => false

/-- Concrete filesystem for the C8 witness: the unregistered directory
`/w/repo/stale` holds an ordinary file `notes.txt`. -/
def C8fs : FS where
  dirs := [⟨true, ["w"]⟩, ⟨true, ["w", "repo"]⟩, ⟨true, ["w", "repo", "stale"]⟩]
  files := [⟨true, ["w", "repo", "stale", "notes.txt"]⟩]

/-- Witness for C8 at the concrete world: the non-empty lingering
directory is gone afterwards and the `lingering` counter is positive. -/
theorem claim_C8_witness :
    childP (childP ⟨true, ["w"]⟩ "repo") "stale" ∉
      (clean_all_worktrees C8env ⟨true, ["w"]⟩ C8fs).2.dirs ∧
    1 ≤ (clean_all_worktrees C8env ⟨true, ["w"]⟩ C8fs).1.lingering :=
  claim_C8_lingering_directory_removed C8env ⟨true, ["w"]⟩ "repo" "stale" C8fs
    ⟨by decide, by decide⟩ (by decide) (by decide) (by decide) (by decide)
    (by decide) (by decide) (by decide)
    (Or.inr ⟨by decide, ⟨true, ["w", "repo", "stale", "notes.txt"]⟩,
      Or.inr (by decide), by decide, by decide, by decide⟩)
